import Mathlib

/-! Schema conversion utilities: embedding and verified properties.

Shallow embedding of `sources/common/utils.go` and of
`assessment/report_generator.go`.

Conventions of the embedding
* A Go `map[string]V` is a `GoMap V`: a finite list of key/value entries with
  pairwise distinct keys.  Ranging over the map visits `entries` in list
  order; Go leaves that order unspecified, so every statement about a loop
  over a map is proved for every entry order.
* A Go slice is a `List`: the list of its elements.  That is exact for what a
  function returns.  Where a function writes into the backing array of a slice
  (`removeSchemaIssue`, `ComputeNonKeyColumnSize`), what other slices sharing
  the array see is covered by the embedding on slice headers in the section
  on issue slices in memory.
* Go `int` and `int64` are 64-bit two's complement: values are `Int`, and an
  addition that can overflow is followed by `wrapInt`.
* Reading a missing key yields the zero value of the element type, written
  `GoMap.getD`; the zero values are the `Inhabited` instances below.
-/

/-- The Go `string` type, under a name that structure fields cannot shadow. -/
abbrev GoString := String

/-- Go `map[string]V`: entries with pairwise distinct keys. -/
structure GoMap (V : Type) where
  entries : List (GoString × V)
  nodup : (entries.map Prod.fst).Nodup
deriving DecidableEq

namespace GoMap

/-- The empty map (also the zero value `nil` for reads). -/
def empty {V : Type} : GoMap V := ⟨[], List.nodup_nil⟩

/-- Entry-list form of `m[k] = v`: overwrite the entry of `k`, or add one. -/
def setEntries {V : Type} : List (GoString × V) → GoString → V → List (GoString × V)
  | [], k, v => [(k, v)]
  | e :: rest, k, v => if e.1 = k then (k, v) :: rest else e :: setEntries rest k v

/-- Entry-list form of the lookup `v, ok := m[k]`. -/
def lookupEntries {V : Type} : List (GoString × V) → GoString → Option V
  | [], _ => none
  | e :: rest, k => if e.1 = k then some e.2 else lookupEntries rest k

/-- The map update `m[k] = v`. -/
def set {V : Type} (m : GoMap V) (k : GoString) (v : V) : GoMap V :=
  ⟨setEntries m.entries k v, by
    have key : ∀ l : List (GoString × V), (l.map Prod.fst).Nodup →
        ((setEntries l k v).map Prod.fst).Nodup ∧
          ∀ x, x ∈ (setEntries l k v).map Prod.fst → x = k ∨ x ∈ l.map Prod.fst := by
      intro l
      induction l with
      | nil => intro _; simp [setEntries]
      | cons e rest ih =>
        intro h
        rw [List.map_cons, List.nodup_cons] at h
        by_cases hk : e.1 = k
        · simp only [setEntries, hk, if_true, List.map_cons, List.nodup_cons]
          refine ⟨⟨hk ▸ h.1, h.2⟩, ?_⟩
          intro x hx
          rcases List.mem_cons.1 hx with hx | hx
          · exact Or.inl hx
          · exact Or.inr (List.mem_cons_of_mem _ hx)
        · simp only [setEntries, hk, if_false, List.map_cons, List.nodup_cons]
          obtain ⟨ih1, ih2⟩ := ih h.2
          refine ⟨⟨?_, ih1⟩, ?_⟩
          · intro hmem
            rcases ih2 _ hmem with h1 | h1
            · exact hk h1
            · exact h.1 h1
          · intro x hx
            rcases List.mem_cons.1 hx with hx | hx
            · exact Or.inr (hx ▸ List.mem_cons_self _ _)
            · rcases ih2 x hx with h1 | h1
              · exact Or.inl h1
              · exact Or.inr (List.mem_cons_of_mem _ h1)
    exact (key m.entries m.nodup).1⟩

/-- The lookup `v, ok := m[k]`; `none` stands for `ok = false`. -/
def get? {V : Type} (m : GoMap V) (k : GoString) : Option V := lookupEntries m.entries k

/-- The read `m[k]`, which yields the zero value when `k` is missing. -/
def getD {V : Type} [Inhabited V] (m : GoMap V) (k : GoString) : V := (m.get? k).getD default

instance {V : Type} : Inhabited (GoMap V) := ⟨empty⟩

end GoMap

/-- Go `int` on a 64-bit platform: the two's-complement value an integer
result wraps to. -/
def wrapInt (x : Int) : Int := (x + 2 ^ 63) % 2 ^ 64 - 2 ^ 63

/-! ## Package `ddl` (declarations outside the embedded files) -/

/-- The constants of package `ddl` used by `utils.go`.  Their declarations are
not part of the embedded sources, so they are parameters of every function
that mentions them. -/
structure ddl.Consts where
  Bool : GoString
  Bytes : GoString
  Date : GoString
  Float32 : GoString
  Float64 : GoString
  Int64 : GoString
  String : GoString
  Timestamp : GoString
  Numeric : GoString
  JSON : GoString
  MaxLength : Int
  StringMaxLength : Int
  BytesMaxLength : Int
  MaxNonKeyColumnLength : Int

/-- Mirrors `ddl.Type`: `Name string`, `Len int64`, `IsArray bool`. -/
structure ddl.Type where
  Name : GoString
  Len : Int
  IsArray : Bool
deriving DecidableEq, Repr

instance : Inhabited ddl.Type := ⟨⟨"", 0, false⟩⟩

/-- Mirrors `ddl.ColumnDef`, with the fields the target schema of the spec lists. -/
structure ddl.ColumnDef where
  Id : GoString
  T : ddl.Type
deriving DecidableEq, Repr

instance : Inhabited ddl.ColumnDef := ⟨⟨"", default⟩⟩

/-- Mirrors `ddl.IndexKey`: one column of the target primary key. -/
structure ddl.IndexKey where
  ColId : GoString
deriving DecidableEq, Repr

/-- Mirrors `ddl.CreateTable`: a table of the target schema. -/
structure ddl.CreateTable where
  Name : GoString
  ColIds : List GoString
  ColDefs : GoMap ddl.ColumnDef
  PrimaryKeys : List ddl.IndexKey
deriving DecidableEq

instance : Inhabited ddl.CreateTable := ⟨⟨"", [], GoMap.empty, []⟩⟩

/-! ## Package `schema` (declarations outside the embedded files) -/

/-- Mirrors `schema.Key`: a key column and its 1-based position. -/
structure schema.Key where
  ColId : GoString
  Order : Int
deriving DecidableEq, Repr

/-- Mirrors `schema.Index`: an index with its ordered key list. -/
structure schema.Index where
  Keys : List schema.Key
deriving DecidableEq, Repr

/-- Mirrors `schema.Column`: a column of the source schema. -/
structure schema.Column where
  Name : GoString
deriving DecidableEq, Repr

instance : Inhabited schema.Column := ⟨⟨""⟩⟩

/-- Mirrors `schema.Table`: a table of the source schema. -/
structure schema.Table where
  Name : GoString
  ColIds : List GoString
  ColDefs : GoMap schema.Column
  PrimaryKeys : List schema.Key
  Indexes : List schema.Index
deriving DecidableEq

instance : Inhabited schema.Table := ⟨⟨"", [], GoMap.empty, [], []⟩⟩

/-! ## Package `internal` (declarations outside the embedded files) -/

/-- Modelled from the spec: `internal.SchemaIssue` is declared outside the
embedded files.  The spec describes it as an enumerated code; the three codes
`utils.go` names are constructors and every further code is `Other n`. -/
inductive internal.SchemaIssue where
  | ArrayTypeNotSupported
  | NumericPKNotSupported
  | RowLimitExceeded
  | Other (code : Nat)
deriving DecidableEq, Repr

/-- Mirrors `internal.TableIssues`: the ledger entry of one table. -/
structure internal.TableIssues where
  TableLevelIssues : List internal.SchemaIssue
  ColumnLevelIssues : GoMap (List internal.SchemaIssue)
deriving DecidableEq

instance : Inhabited internal.TableIssues := ⟨⟨[], GoMap.empty⟩⟩

/-- Mirrors the fields of `internal.Conv` that `utils.go` reads and writes. -/
structure internal.Conv where
  SrcSchema : GoMap schema.Table
  SpSchema : GoMap ddl.CreateTable
  SchemaIssues : GoMap internal.TableIssues
deriving DecidableEq

/-! ## Package `common`: `sources/common/utils.go` -/

namespace common

/-- Embeds `IntersectionOfTwoStringSlices` (utils.go:108): `hash` collects the
elements of `a`; the second loop scans `b` and appends the elements found in
`hash`. -/
def IntersectionOfTwoStringSlices (a b : List GoString) : List GoString :=
  let hash : GoMap Unit := a.foldl (fun hash v => hash.set v ()) GoMap.empty
  b.foldl (fun set v => if (hash.get? v).isSome then set ++ [v] else set) []

/-- Embeds `ToPGDialectType` (utils.go:169); the second component is the issue
slice (`nil` is the empty list). -/
def ToPGDialectType (d : ddl.Consts) (standardType : ddl.Type) (isPk : Bool) :
    ddl.Type × List internal.SchemaIssue :=
  if standardType.IsArray then
    ({ Name := d.String, Len := d.MaxLength, IsArray := false },
      [internal.SchemaIssue.ArrayTypeNotSupported])
  else if isPk && standardType.Name == d.Numeric then
    ({ Name := d.String, Len := d.MaxLength, IsArray := false },
      [internal.SchemaIssue.NumericPKNotSupported])
  else
    (standardType, [])

/-- Embeds the map literal `DATATYPE_TO_STORAGE_SIZE` (utils.go:191). -/
def DATATYPE_TO_STORAGE_SIZE (d : ddl.Consts) : GoMap Int :=
  (((((((GoMap.empty.set d.Bool 1).set d.Date 4).set d.Float32 4).set d.Float64 8).set
    d.Int64 8).set d.JSON d.StringMaxLength).set d.Numeric 22).set d.Timestamp 12

/-- Embeds `getColumnSize` (utils.go:202).  `int(length)` is the identity on a
64-bit platform; a missing key of the size table reads as `0`. -/
def getColumnSize (d : ddl.Consts) (dataType : GoString) (length : Int) : Int :=
  if dataType = d.String then
    if length = d.MaxLength then d.StringMaxLength else length
  else if dataType = d.Bytes then
    if length = d.MaxLength then d.BytesMaxLength else length
  else
    (DATATYPE_TO_STORAGE_SIZE d).getD dataType

/-- Embeds `checkIfColumnIsPartOfSpSchemaPK` (utils.go:226). -/
def checkIfColumnIsPartOfSpSchemaPK (id : GoString) : List ddl.IndexKey → Bool
  | [] => false
  | key :: rest => if key.ColId = id then true else checkIfColumnIsPartOfSpSchemaPK id rest

/-- Loop of `findSchemaIssue`: `i` is the index of the head of the part of the
slice still to scan, `ind` the current value of the result variable. -/
def findSchemaIssue.loop (issue : internal.SchemaIssue) :
    List internal.SchemaIssue → Nat → Int → Int
  | [], _, ind => ind
  | x :: rest, i, ind => findSchemaIssue.loop issue rest (i + 1) (if x = issue then (i : Int) else ind)

/-- Embeds `findSchemaIssue` (utils.go:262). -/
def findSchemaIssue (schemaissue : List internal.SchemaIssue) (issue : internal.SchemaIssue) :
    Int :=
  findSchemaIssue.loop issue schemaissue 0 (-1)

/-- Embeds `removeSchemaIssue` (utils.go:254):
`append(schemaissue[:ind], schemaissue[ind+1:]...)`, as the list of elements
of the slice returned.  The write into the backing array of the argument is
embedded in `mem.removeSchemaIssue`. -/
def removeSchemaIssue (schemaissue : List internal.SchemaIssue) (issue : internal.SchemaIssue) :
    List internal.SchemaIssue :=
  let ind := findSchemaIssue schemaissue issue
  if ind ≠ -1 then
    schemaissue.take ind.toNat ++ schemaissue.drop (ind.toNat + 1)
  else
    schemaissue

/-- Loop of `ComputeNonKeyColumnSize` over the column definitions: the value of
`totalNonKeyColumnSize` after ranging over `colDefs`, starting from `total`.
The `+=` is a Go `int` addition. -/
def ComputeNonKeyColumnSize.total (d : ddl.Consts) (primaryKeys : List ddl.IndexKey)
    (colDefs : List (GoString × ddl.ColumnDef)) (total : Int) : Int :=
  colDefs.foldl
    (fun total e =>
      if !checkIfColumnIsPartOfSpSchemaPK e.2.Id primaryKeys then
        wrapInt (total + getColumnSize d e.2.T.Name e.2.T.Len)
      else total)
    total

/-- Embeds `ComputeNonKeyColumnSize` (utils.go:235) with the ledger held as
lists: the entry stored for `tableId`.  What the writes into the backing array
do to other slices of the ledger is embedded in `mem.ComputeNonKeyColumnSize`,
which stores a slice showing this list for `tableId`. -/
def ComputeNonKeyColumnSize (d : ddl.Consts) (conv : internal.Conv) (tableId : GoString) :
    internal.Conv :=
  let tableLevelIssues := (conv.SchemaIssues.getD tableId).TableLevelIssues
  let tableLevelIssues := removeSchemaIssue tableLevelIssues internal.SchemaIssue.RowLimitExceeded
  let totalNonKeyColumnSize :=
    ComputeNonKeyColumnSize.total d (conv.SpSchema.getD tableId).PrimaryKeys
      (conv.SpSchema.getD tableId).ColDefs.entries 0
  let tableLevelIssues :=
    if totalNonKeyColumnSize > d.MaxNonKeyColumnLength then
      tableLevelIssues ++ [internal.SchemaIssue.RowLimitExceeded]
    else tableLevelIssues
  { conv with
    SchemaIssues := conv.SchemaIssues.set tableId
      { TableLevelIssues := tableLevelIssues
        ColumnLevelIssues := (conv.SchemaIssues.getD tableId).ColumnLevelIssues } }

end common

/-! ## Further declarations of `utils.go` and `report_generator.go` -/

/-- A Go `error` value, identified with its message. -/
abbrev GoError := String

/-- Lexicographic comparison `a <= b` of two character sequences by code
point. -/
def GoString.leChars : List Char → List Char → Bool
  | [], _ => true
  | _ :: _, [] => false
  | a :: as, b :: bs =>
    if a.toNat < b.toNat then true
    else if b.toNat < a.toNat then false
    else GoString.leChars as bs

/-- Go's `a <= b` on strings.  Go compares strings byte-wise; on the
well-formed UTF-8 text a `String` holds, the byte-wise order is the
lexicographic order of the code points. -/
def GoString.le (a b : GoString) : Bool := GoString.leChars a.data b.data

/-- Go's `a < b` on strings. -/
def GoString.lt (a b : GoString) : Bool := GoString.le a b && !GoString.le b a

/-- Go's `sort.Strings`: the slice sorted in increasing order.  Equal strings
are indistinguishable, so the sorted slice does not depend on the sorting
algorithm. -/
def sort.Strings (x : List GoString) : List GoString :=
  x.insertionSort (fun a b => GoString.le a b = true)

/-- Modelled from the spec: `internal.GetColIdFromSrcName` is declared outside
the embedded files.  The spec says it resolves a source column name to its
identifier: here the key under which a column of that name is stored in the
table's column definitions, and an error when no column has the name. -/
def internal.GetColIdFromSrcName (srcColDef : GoMap schema.Column) (columnName : GoString) :
    Except GoError GoString :=
  match srcColDef.entries.find? (fun e => decide (e.2.Name = columnName)) with
  | some e => .ok e.1
  | none => .error ("column id not found for source column " ++ columnName)

namespace common

/-- First loop of `GetSortedTableIdsBySrcName` and `GetSortedTableIdsBySpName`
over the entries the `range` yields: the names in iteration order and the
name-to-id map. -/
def collectTableNames {V : Type} (name : V → GoString) (entries : List (GoString × V)) :
    List GoString × GoMap GoString :=
  entries.foldl (fun st e => (st.1 ++ [name e.2], st.2.set (name e.2) e.1)) ([], GoMap.empty)

/-- Embeds `GetSortedTableIdsBySrcName` (utils.go:61). -/
def GetSortedTableIdsBySrcName (srcSchema : GoMap schema.Table) : List GoString :=
  let st := collectTableNames (fun srcTable : schema.Table => srcTable.Name) srcSchema.entries
  let tableNames := sort.Strings st.1
  tableNames.foldl (fun sortedTableIds name => sortedTableIds ++ [st.2.getD name]) []

/-- Embeds `GetSortedTableIdsBySpName` (utils.go:75). -/
def GetSortedTableIdsBySpName (spSchema : GoMap ddl.CreateTable) : List GoString :=
  let st := collectTableNames (fun spTable : ddl.CreateTable => spTable.Name) spSchema.entries
  let tableNames := sort.Strings st.1
  tableNames.foldl (fun sortedTableIds name => sortedTableIds ++ [st.2.getD name]) []

/-- Embeds `GetCommonColumnIds` (utils.go:125); `colIds[i]` is the element
`colId` of the iteration. -/
def GetCommonColumnIds (conv : internal.Conv) (tableId : GoString) (colIds : List GoString) :
    List GoString :=
  let srcSchema := conv.SrcSchema.getD tableId
  colIds.foldl
    (fun commonColIds colId =>
      if (srcSchema.ColDefs.get? colId).isSome then commonColIds ++ [colId] else commonColIds)
    []

/-- Loop of `PrepareColumns` over the source column names: `srcColIds` is the
slice built so far; an error of the resolver ends the loop. -/
def PrepareColumns.resolve (GetColIdFromSrcName : GoMap schema.Column → GoString → Except GoError GoString)
    (colDefs : GoMap schema.Column) : List GoString → List GoString → Except GoError (List GoString)
  | [], srcColIds => .ok srcColIds
  | colName :: rest, srcColIds =>
    match GetColIdFromSrcName colDefs colName with
    | .error err => .error err
    | .ok colId => PrepareColumns.resolve GetColIdFromSrcName colDefs rest (srcColIds ++ [colId])

/-- Embeds `PrepareColumns` (utils.go:137).  The resolver
`internal.GetColIdFromSrcName` is declared outside the embedded files and is a
parameter.  The result is the pair `(ids, err)`; `none` is the `nil` error. -/
def PrepareColumns (GetColIdFromSrcName : GoMap schema.Column → GoString → Except GoError GoString)
    (conv : internal.Conv) (tableId : GoString) (srcCols : List GoString) :
    List GoString × Option GoError :=
  let spColIds := (conv.SpSchema.getD tableId).ColIds
  match PrepareColumns.resolve GetColIdFromSrcName (conv.SrcSchema.getD tableId).ColDefs srcCols [] with
  | .error err => ([], some err)
  | .ok srcColIds =>
    let commonIds := IntersectionOfTwoStringSlices spColIds srcColIds
    if commonIds.length = 0 then
      ([], some "no common columns between source and spanner table")
    else
      (commonIds, none)

/-- Embeds `PrepareValues` (utils.go:154) for an element type `T` whose zero
value is `default`.  `values[i]` is in bounds because the lengths agree.  The
result is the pair `(values, err)`; `none` is the `nil` error. -/
def PrepareValues {T : Type} [Inhabited T] (_conv : internal.Conv) (_tableId : GoString)
    (colNameIdMap : GoMap GoString) (commonColIds srcCols : List GoString) (values : List T) :
    List T × Option GoError :=
  if srcCols.length ≠ values.length then
    ([], some ("PrepareValues: srcCols and vals don\x27t all have the same lengths: len(srcCols)="
      ++ toString srcCols.length ++ ", len(values)=" ++ toString values.length))
  else
    let mapColIdToVal : GoMap T :=
      srcCols.enum.foldl
        (fun mapColIdToVal p => mapColIdToVal.set (colNameIdMap.getD p.2) (values.getD p.1 default))
        GoMap.empty
    let newValues := commonColIds.foldl (fun newValues id => newValues ++ [mapColIdToVal.getD id]) []
    (newValues, none)

end common

/-! ## Package `assessment`: `assessment/report_generator.go` -/

/-- Mirrors `utils.ColumnDetails` (declared outside the embedded files) with the
fields `columnDefinitionToString` reads. -/
structure utils.ColumnDetails where
  Datatype : GoString
  IsArray : Bool
  Size : Int
  IsNull : Bool
deriving DecidableEq, Repr

instance : Inhabited utils.ColumnDetails := ⟨⟨"", false, 0, false⟩⟩

/-- Mirrors `utils.SchemaAssessmentOutput` (declared outside the embedded files)
with the fields `convertToSchemaReportRows` reads. -/
structure utils.SchemaAssessmentOutput where
  TableNames : List GoString
  ColumnNames : GoMap (List GoString)
  ColumnAssessmentOutput : GoMap utils.ColumnDetails
deriving DecidableEq

/-- Mirrors `utils.AssessmentOutput` (declared outside the embedded files). -/
structure utils.AssessmentOutput where
  SchemaAssessment : utils.SchemaAssessmentOutput
deriving DecidableEq

namespace assessment

/-- Mirrors `SchemaReportRow` (report_generator.go:26). -/
structure SchemaReportRow where
  element : GoString
  elementType : GoString
  sourceDefinition : GoString
  targetName : GoString
  targetDefinition : GoString
  dbChangeType : GoString
  dbChangeEffort : GoString
  dbImpact : GoString
  codeChangeType : GoString
  codeChangeEffort : GoString
  codeImpactedFiles : GoString
  codeSnippets : GoString
deriving DecidableEq, Repr

instance : Inhabited SchemaReportRow := ⟨⟨"", "", "", "", "", "", "", "", "", "", "", ""⟩⟩

/-- Embeds `getSchemaKeyVsHeader` (report_generator.go:97): the map literal. -/
def getSchemaKeyVsHeader : GoMap GoString :=
  ((((((((((GoMap.empty.set "element" "Element").set "element_type" "Element Type").set
    "source_definition" "Source Definition").set "target_name" "Target Name").set
    "target_definition" "Target Definition").set "db_change_type" "DB Change Type").set
    "db_change_effort" "DB Change Effort").set "code_change_type" "Code Change Type").set
    "code_change_effort" "Code Change Effort").set "code_impacted_files" "Impacted Files").set
    "code_snippets" "Related Code Snippets"

/-- Embeds `columnDefinitionToString` (report_generator.go:154); `fmt.Sprint`
of the size is its decimal form. -/
def columnDefinitionToString (columnDefinition : utils.ColumnDetails) : GoString :=
  let s := columnDefinition.Datatype
  let s := if columnDefinition.IsArray then s ++ " (" ++ toString columnDefinition.Size ++ ")" else s
  if !columnDefinition.IsNull then s ++ " NOT NULL" else s

/-- Embeds `convertToSchemaReportRows` (report_generator.go:116). -/
def convertToSchemaReportRows (assessmentOutput : utils.AssessmentOutput) : List SchemaReportRow :=
  let rows : List SchemaReportRow :=
    assessmentOutput.SchemaAssessment.TableNames.foldl
      (fun rows tableName =>
        rows ++ [{ (default : SchemaReportRow) with
          element := tableName
          elementType := "Table"
          sourceDefinition := "N/A"
          targetName := "N/A"
          targetDefinition := "N/A"
          dbChangeEffort := "Automatic"
          dbChangeType := "None" }])
      []
  assessmentOutput.SchemaAssessment.ColumnNames.entries.foldl
    (fun rows columnNames =>
      columnNames.2.foldl
        (fun rows columnName =>
          rows ++ [{ (default : SchemaReportRow) with
            element := columnName
            elementType := "Column"
            targetDefinition := columnDefinitionToString
              (assessmentOutput.SchemaAssessment.ColumnAssessmentOutput.getD columnName) }])
        rows)
    rows

/-- Embeds `generateSchemaReport` (report_generator.go:65).  `headerRange` is
the sequence of entries that `range headerMap` yields: the entries of
`getSchemaKeyVsHeader ()` in the order the Go runtime picks for this run. -/
def generateSchemaReport (headerRange : List (GoString × GoString))
    (assessmentOutput : utils.AssessmentOutput) : List (List GoString) :=
  let header : List GoString := headerRange.foldl (fun header e => header ++ [e.2]) []
  let records : List (List GoString) := [header]
  (convertToSchemaReportRows assessmentOutput).foldl
    (fun records schemaRow =>
      records ++ [[schemaRow.element, schemaRow.elementType, schemaRow.sourceDefinition,
        schemaRow.targetName, schemaRow.targetDefinition, schemaRow.dbChangeEffort,
        schemaRow.dbChangeType, schemaRow.codeChangeEffort, schemaRow.codeChangeType,
        schemaRow.codeImpactedFiles, schemaRow.codeSnippets]])
    records

end assessment

/-! ## Issue slices in memory

The functions above treat a slice as the list of its elements.  That is exact
for the slice a function returns, but not for what other slices see: Go's
`append(s[:i], s[i+1:]...)` and an `append` into spare capacity write into the
backing array of `s`, which other slice headers may share.  The definitions
below keep the backing arrays of the issue slices in a heap and embed
`removeSchemaIssue` and `ComputeNonKeyColumnSize` on slice headers. -/

/-- A Go slice header for a slice of issues: the window `[off, off + len)` of
the backing array number `arr`, with capacity `cap`.  The zero value is the
`nil` slice. -/
structure mem.Slice where
  arr : Nat
  off : Nat
  len : Nat
  cap : Nat
deriving DecidableEq, Repr

instance : Inhabited mem.Slice := ⟨⟨0, 0, 0, 0⟩⟩

/-- The heap: the backing arrays of the issue slices, by number. -/
abbrev mem.Heap := List (List internal.SchemaIssue)

/-- What the Go runtime decides when `append` has to allocate: how many spare
elements the new backing array gets beyond the `n` needed, and the zero value
of `SchemaIssue` that fills them. -/
structure mem.Runtime where
  spare : Nat → Nat
  zero : internal.SchemaIssue

/-- The elements a slice header shows in a heap. -/
def mem.Slice.view (heap : mem.Heap) (s : mem.Slice) : List internal.SchemaIssue :=
  ((heap.getD s.arr []).drop s.off).take s.len

/-- A slice header lies within its backing array. -/
abbrev mem.Slice.wellFormed (heap : mem.Heap) (s : mem.Slice) : Prop :=
  s.len ≤ s.cap ∧ s.off + s.cap ≤ (heap.getD s.arr []).length

/-- The slice `s` cannot see writes made through the slice `own`: it is empty,
or it is a slice of the heap whose backing array is not that of `own` (an
`own` without capacity has no backing array to write to). -/
abbrev mem.Slice.separate (heap : mem.Heap) (own s : mem.Slice) : Prop :=
  s.len = 0 ∨ (s.arr < heap.length ∧ (s.arr ≠ own.arr ∨ own.cap = 0))

/-- The array with `elems` stored from position `p` on. -/
def mem.writeAt (a : List internal.SchemaIssue) (p : Nat) (elems : List internal.SchemaIssue) :
    List internal.SchemaIssue :=
  a.take p ++ elems ++ a.drop (p + elems.length)

/-- Go's `append(dst, elems...)`, where `elems` are the elements of the source
as they are read before any write.  With enough capacity the elements are
stored in the backing array of `dst`; otherwise a new backing array is
allocated. -/
def mem.append (rt : mem.Runtime) (heap : mem.Heap) (dst : mem.Slice)
    (elems : List internal.SchemaIssue) : mem.Heap × mem.Slice :=
  if dst.len + elems.length ≤ dst.cap then
    (heap.set dst.arr (mem.writeAt (heap.getD dst.arr []) (dst.off + dst.len) elems),
      { dst with len := dst.len + elems.length })
  else
    (heap ++ [dst.view heap ++ elems ++
        List.replicate (rt.spare (dst.len + elems.length)) rt.zero],
      { arr := heap.length
        off := 0
        len := dst.len + elems.length
        cap := dst.len + elems.length + rt.spare (dst.len + elems.length) })

/-- Embeds `removeSchemaIssue` (utils.go:254) on slice headers:
`schemaissue[:ind]` keeps array, offset and capacity, and the elements of
`schemaissue[ind+1:]` are appended to it. -/
def mem.removeSchemaIssue (rt : mem.Runtime) (heap : mem.Heap) (schemaissue : mem.Slice)
    (issue : internal.SchemaIssue) : mem.Heap × mem.Slice :=
  let ind := common.findSchemaIssue (schemaissue.view heap) issue
  if ind ≠ -1 then
    mem.append rt heap { schemaissue with len := ind.toNat }
      ((schemaissue.view heap).drop (ind.toNat + 1))
  else
    (heap, schemaissue)

/-- Mirrors `internal.TableIssues` with slice headers for the issue slices. -/
structure mem.TableIssues where
  TableLevelIssues : mem.Slice
  ColumnLevelIssues : GoMap mem.Slice
deriving DecidableEq

instance : Inhabited mem.TableIssues := ⟨⟨default, GoMap.empty⟩⟩

/-- Mirrors `internal.Conv` with the ledger held as slice headers on a heap. -/
structure mem.Conv where
  Heap : mem.Heap
  SrcSchema : GoMap schema.Table
  SpSchema : GoMap ddl.CreateTable
  SchemaIssues : GoMap mem.TableIssues
deriving DecidableEq

/-- Embeds `ComputeNonKeyColumnSize` (utils.go:235) on slice headers. -/
def mem.ComputeNonKeyColumnSize (rt : mem.Runtime) (d : ddl.Consts) (conv : mem.Conv)
    (tableId : GoString) : mem.Conv :=
  let tableLevelIssues := (conv.SchemaIssues.getD tableId).TableLevelIssues
  let removed := mem.removeSchemaIssue rt conv.Heap tableLevelIssues
    internal.SchemaIssue.RowLimitExceeded
  let totalNonKeyColumnSize :=
    common.ComputeNonKeyColumnSize.total d (conv.SpSchema.getD tableId).PrimaryKeys
      (conv.SpSchema.getD tableId).ColDefs.entries 0
  let appended :=
    if totalNonKeyColumnSize > d.MaxNonKeyColumnLength then
      mem.append rt removed.1 removed.2 [internal.SchemaIssue.RowLimitExceeded]
    else removed
  { conv with
    Heap := appended.1
    SchemaIssues := conv.SchemaIssues.set tableId
      { TableLevelIssues := appended.2
        ColumnLevelIssues := (conv.SchemaIssues.getD tableId).ColumnLevelIssues } }

/-- The table-level issues of a table as the ledger shows them. -/
def mem.tableLevelIssues (conv : mem.Conv) (tableId : GoString) : List internal.SchemaIssue :=
  (conv.SchemaIssues.getD tableId).TableLevelIssues.view conv.Heap

/-- The issues of one column of a table as the ledger shows them. -/
def mem.columnLevelIssues (conv : mem.Conv) (tableId colId : GoString) :
    List internal.SchemaIssue :=
  ((conv.SchemaIssues.getD tableId).ColumnLevelIssues.getD colId).view conv.Heap

/-! ## Notions the stated properties refer to -/

/-- The table-level issue list of a table in the ledger. -/
def tableLevelIssues (conv : internal.Conv) (tableId : GoString) : List internal.SchemaIssue :=
  (conv.SchemaIssues.getD tableId).TableLevelIssues

/-- The storage sizes of the column definitions of a target table whose `Id`
is the `ColId` of no entry of the table's primary key. -/
def nonKeyColumnSizes (d : ddl.Consts) (table : ddl.CreateTable) : List Int :=
  (table.ColDefs.entries.filter
    (fun e => table.PrimaryKeys.all (fun key => decide (key.ColId ≠ e.2.Id)))).map
    (fun e => common.getColumnSize d e.2.T.Name e.2.T.Len)

/-- One event in the life of a conversion context: a run of the row-limit
validator on some table, or an edit that replaces the target schema. -/
inductive ValidatorEvent where
  | validate (tableId : GoString)
  | editTarget (spSchema : GoMap ddl.CreateTable)

/-- The context after one event. -/
def ValidatorEvent.apply (d : ddl.Consts) (conv : internal.Conv) :
    ValidatorEvent → internal.Conv
  | .validate tableId => common.ComputeNonKeyColumnSize d conv tableId
  | .editTarget spSchema => { conv with SpSchema := spSchema }

/-- The values the `ddl` constants have in the upstream package `spanner/ddl`;
used to instantiate the parameter in concrete evaluations. -/
def ddl.upstream : ddl.Consts where
  Bool := "BOOL"
  Bytes := "BYTES"
  Date := "DATE"
  Float32 := "FLOAT32"
  Float64 := "FLOAT64"
  Int64 := "INT64"
  String := "STRING"
  Timestamp := "TIMESTAMP"
  Numeric := "NUMERIC"
  JSON := "JSON"
  MaxLength := 9223372036854775807
  StringMaxLength := 2621440
  BytesMaxLength := 10485760
  MaxNonKeyColumnLength := 1677721600

/-- The key list with `Order` set to the 1-based position, counting the head
as position `n`. -/
def schema.orderedFrom : Nat → List schema.Key → List schema.Key
  | _, [] => []
  | n, key :: rest => { key with Order := (n : Int) + 1 } :: schema.orderedFrom (n + 1) rest

/-- A target table with a single one-byte column and no primary key. -/
def exampleSmallTable : ddl.CreateTable :=
  { Name := "orders"
    ColIds := ["c1"]
    ColDefs := GoMap.empty.set "c1" { Id := "c1", T := { Name := "BOOL", Len := 0, IsArray := false } }
    PrimaryKeys := [] }

/-- A target table whose only non-key column has a declared size equal to the
upstream row limit; the key column `c0` does not count. -/
def exampleTableAtLimit : ddl.CreateTable :=
  { Name := "orders"
    ColIds := ["c0", "c1"]
    ColDefs :=
      (GoMap.empty.set "c0" { Id := "c0", T := { Name := "INT64", Len := 0, IsArray := false } }).set
        "c1" { Id := "c1", T := { Name := "STRING", Len := 1677721600, IsArray := false } }
    PrimaryKeys := [{ ColId := "c0" }] }

/-- The table `exampleTableAtLimit` with one more one-byte column. -/
def exampleTableOverLimit : ddl.CreateTable :=
  { exampleTableAtLimit with
    ColIds := ["c0", "c1", "c2"]
    ColDefs := exampleTableAtLimit.ColDefs.set "c2"
      { Id := "c2", T := { Name := "BOOL", Len := 0, IsArray := false } } }

/-- A context whose ledger holds `RowLimitExceeded` twice for the small table
`t1`. -/
def exampleConvDuplicated : internal.Conv :=
  { SrcSchema := GoMap.empty
    SpSchema := GoMap.empty.set "t1" exampleSmallTable
    SchemaIssues := GoMap.empty.set "t1"
      { TableLevelIssues :=
          [internal.SchemaIssue.RowLimitExceeded, internal.SchemaIssue.RowLimitExceeded]
        ColumnLevelIssues := GoMap.empty } }

/-- A context whose ledger holds a stale `RowLimitExceeded` for the small
table `t1`. -/
def exampleConvStale : internal.Conv :=
  { SrcSchema := GoMap.empty
    SpSchema := GoMap.empty.set "t1" exampleSmallTable
    SchemaIssues := GoMap.empty.set "t1"
      { TableLevelIssues :=
          [internal.SchemaIssue.Other 7, internal.SchemaIssue.RowLimitExceeded]
        ColumnLevelIssues := GoMap.empty } }

/-- A context with an empty ledger whose table `t1` is exactly at the limit. -/
def exampleConvAtLimit : internal.Conv :=
  { SrcSchema := GoMap.empty
    SpSchema := GoMap.empty.set "t1" exampleTableAtLimit
    SchemaIssues := GoMap.empty }

/-- A source table whose key orders are not yet initialised. -/
def exampleSourceTable : schema.Table :=
  { Name := "orders"
    ColIds := ["c0", "c1", "c2"]
    ColDefs := ((GoMap.empty.set "c0" { Name := "id" }).set "c1" { Name := "name" }).set
      "c2" { Name := "age" }
    PrimaryKeys := [{ ColId := "c0", Order := 7 }, { ColId := "c1", Order := 0 }]
    Indexes :=
      [{ Keys := [{ ColId := "c2", Order := 0 }] },
        { Keys := [{ ColId := "c1", Order := 3 }, { ColId := "c2", Order := 3 }] }] }

/-- A source schema with tables named zeta, alpha and mike. -/
def exampleNamedSchema : GoMap schema.Table :=
  ((GoMap.empty.set "t1" { exampleSourceTable with Name := "zeta" }).set "t2"
    { exampleSourceTable with Name := "alpha" }).set "t3" { exampleSourceTable with Name := "mike" }

/-- The schema `exampleNamedSchema` ranged over in another order. -/
def exampleNamedSchemaReordered : GoMap schema.Table :=
  ((GoMap.empty.set "t3" { exampleSourceTable with Name := "mike" }).set "t1"
    { exampleSourceTable with Name := "zeta" }).set "t2" { exampleSourceTable with Name := "alpha" }

/-- A target schema with tables named zeta and alpha. -/
def exampleTargetSchema : GoMap ddl.CreateTable :=
  (GoMap.empty.set "t1" { exampleSmallTable with Name := "zeta" }).set "t2"
    { exampleSmallTable with Name := "alpha" }

/-- The schema `exampleTargetSchema` ranged over in another order. -/
def exampleTargetSchemaReordered : GoMap ddl.CreateTable :=
  (GoMap.empty.set "t2" { exampleSmallTable with Name := "alpha" }).set "t1"
    { exampleSmallTable with Name := "zeta" }

/-- A source schema in which the tables `t1` and `t2` share the name orders. -/
def exampleSharedNameSchema : GoMap schema.Table :=
  ((GoMap.empty.set "t1" { exampleSourceTable with Name := "orders" }).set "t2"
    { exampleSourceTable with Name := "orders" }).set "t3"
    { exampleSourceTable with Name := "items" }

/-- A context for the data copy of table `t1`: the source table has the
columns id, name and age (`c0`, `c1`, `c2`), the target table holds `c0` and
`c1`. -/
def exampleConvCopy : internal.Conv :=
  { SrcSchema := GoMap.empty.set "t1" exampleSourceTable
    SpSchema := GoMap.empty.set "t1" { exampleSmallTable with ColIds := ["c0", "c1"] }
    SchemaIssues := GoMap.empty }

/-- The context `exampleConvCopy` with a target table that holds none of the
source columns. -/
def exampleConvCopyDisjoint : internal.Conv :=
  { exampleConvCopy with
    SpSchema := GoMap.empty.set "t1" { exampleSmallTable with ColIds := ["c7"] } }

/-- The name-to-identifier map of the columns of `exampleSourceTable`. -/
def exampleColNameIdMap : GoMap GoString :=
  ((GoMap.empty.set "id" "c0").set "name" "c1").set "age" "c2"

/-- The header row as the spec lists it, which is the order in which
`generateSchemaReport` writes the fields of every data row. -/
def assessment.specHeader : List GoString :=
  ["Element", "Element Type", "Source Definition", "Target Name", "Target Definition",
    "DB Change Effort", "DB Change Type", "Code Change Effort", "Code Change Type",
    "Impacted Files", "Related Code Snippets"]

/-- An assessment output with one table and one of its columns. -/
def exampleAssessment : utils.AssessmentOutput :=
  { SchemaAssessment :=
      { TableNames := ["orders"]
        ColumnNames := GoMap.empty.set "orders" ["id"]
        ColumnAssessmentOutput := GoMap.empty.set "id"
          { Datatype := "INT64", IsArray := false, Size := 8, IsNull := false } } }

/-- A runtime that gives a fresh backing array as many spare elements as
needed ones. -/
def exampleRuntime : mem.Runtime :=
  { spare := fun n => n, zero := internal.SchemaIssue.Other 0 }

/-- A context in which the ledger entries of the tables `t1` and `t2` hold the
same slice `[RowLimitExceeded, Other 7]` of one backing array; table `t1` is
the small table. -/
def exampleMemShared : mem.Conv :=
  { Heap := [[internal.SchemaIssue.RowLimitExceeded, internal.SchemaIssue.Other 7]]
    SrcSchema := GoMap.empty
    SpSchema := GoMap.empty.set "t1" exampleSmallTable
    SchemaIssues :=
      (GoMap.empty.set "t1"
        { TableLevelIssues := { arr := 0, off := 0, len := 2, cap := 2 }
          ColumnLevelIssues := GoMap.empty }).set "t2"
        { TableLevelIssues := { arr := 0, off := 0, len := 2, cap := 2 }
          ColumnLevelIssues := GoMap.empty } }

/-- The context `exampleMemShared` with a backing array of its own for every
slice, and an issue slice for column `c1` of table `t1`. -/
def exampleMemSeparate : mem.Conv :=
  { exampleMemShared with
    Heap :=
      [[internal.SchemaIssue.RowLimitExceeded, internal.SchemaIssue.Other 7],
        [internal.SchemaIssue.RowLimitExceeded, internal.SchemaIssue.Other 7],
        [internal.SchemaIssue.Other 3]]
    SchemaIssues :=
      (GoMap.empty.set "t1"
        { TableLevelIssues := { arr := 0, off := 0, len := 2, cap := 2 }
          ColumnLevelIssues := GoMap.empty.set "c1" { arr := 2, off := 0, len := 1, cap := 1 } }).set
        "t2"
        { TableLevelIssues := { arr := 1, off := 0, len := 2, cap := 2 }
          ColumnLevelIssues := GoMap.empty } }

/-! ## Lemmas on Go maps -/

theorem GoMap.lookupEntries_setEntries_self {V : Type} (l : List (GoString × V)) (k : GoString)
    (v : V) : GoMap.lookupEntries (GoMap.setEntries l k v) k = some v := by
  induction l with
  | nil => simp [GoMap.setEntries, GoMap.lookupEntries]
  | cons e rest ih =>
    by_cases hk : e.1 = k
    · simp [GoMap.setEntries, GoMap.lookupEntries, hk]
    · simp [GoMap.setEntries, GoMap.lookupEntries, hk, ih]

theorem GoMap.lookupEntries_setEntries_ne {V : Type} (l : List (GoString × V)) (k k' : GoString)
    (v : V) (hne : k' ≠ k) :
    GoMap.lookupEntries (GoMap.setEntries l k v) k' = GoMap.lookupEntries l k' := by
  have h2 : ¬ k = k' := fun h => hne h.symm
  induction l with
  | nil => simp only [GoMap.setEntries, GoMap.lookupEntries, if_neg h2]
  | cons e rest ih =>
    by_cases hk : e.1 = k
    · have h1 : ¬ e.1 = k' := fun h => h2 (hk ▸ h)
      simp only [GoMap.setEntries, GoMap.lookupEntries, if_pos hk, if_neg h2, if_neg h1]
    · by_cases hk' : e.1 = k'
      · simp only [GoMap.setEntries, GoMap.lookupEntries, if_neg hk, if_pos hk']
      · simp only [GoMap.setEntries, GoMap.lookupEntries, if_neg hk, if_neg hk', ih]

theorem GoMap.get?_set_self {V : Type} (m : GoMap V) (k : GoString) (v : V) :
    (m.set k v).get? k = some v :=
  GoMap.lookupEntries_setEntries_self m.entries k v

theorem GoMap.get?_set_ne {V : Type} (m : GoMap V) (k k' : GoString) (v : V) (hne : k' ≠ k) :
    (m.set k v).get? k' = m.get? k' :=
  GoMap.lookupEntries_setEntries_ne m.entries k k' v hne

theorem GoMap.getD_set_self {V : Type} [Inhabited V] (m : GoMap V) (k : GoString) (v : V) :
    (m.set k v).getD k = v := by
  simp [GoMap.getD, GoMap.get?_set_self]

theorem GoMap.getD_set_ne {V : Type} [Inhabited V] (m : GoMap V) (k k' : GoString) (v : V)
    (hne : k' ≠ k) : (m.set k v).getD k' = m.getD k' := by
  simp [GoMap.getD, GoMap.get?_set_ne m k k' v hne]

theorem GoMap.get?_empty {V : Type} (k : GoString) : (GoMap.empty : GoMap V).get? k = none := rfl

/-- After inserting the elements of `a` into `m`, a key is present exactly when
it is an element of `a` or was present in `m`. -/
theorem GoMap.isSome_get?_foldl_set (a : List GoString) (m : GoMap Unit) (v : GoString) :
    ((a.foldl (fun hash x => hash.set x ()) m).get? v).isSome = true ↔
      v ∈ a ∨ (m.get? v).isSome = true := by
  induction a generalizing m with
  | nil => simp
  | cons x rest ih =>
    rw [List.foldl_cons, ih]
    by_cases hx : v = x
    · subst hx
      simp [GoMap.get?_set_self]
    · rw [GoMap.get?_set_ne m x v () hx]
      simp [hx]

/-! ## Lemmas on Go `int` arithmetic -/

theorem wrapInt_add_left (a b : Int) : wrapInt (wrapInt a + b) = wrapInt (a + b) := by
  unfold wrapInt; omega

theorem wrapInt_of_inRange (a : Int) (h : -2 ^ 63 ≤ a ∧ a < 2 ^ 63) : wrapInt a = a := by
  unfold wrapInt; omega

theorem wrapInt_idem (a : Int) : wrapInt (wrapInt a) = wrapInt a := by
  unfold wrapInt; omega

/-! ## Lemmas on the issue ledger -/

/-- The scan of `findSchemaIssue`: it keeps `ind` when the issue does not occur
in the part scanned, and otherwise returns the position of an occurrence. -/
theorem common.findSchemaIssue.loop_spec (issue : internal.SchemaIssue)
    (l : List internal.SchemaIssue) (i : Nat) (ind : Int) :
    (issue ∉ l → common.findSchemaIssue.loop issue l i ind = ind) ∧
      (issue ∈ l → ∃ j, j < l.length ∧ l[j]? = some issue ∧
        common.findSchemaIssue.loop issue l i ind = ((i + j : Nat) : Int)) := by
  induction l generalizing i ind with
  | nil => simp [common.findSchemaIssue.loop]
  | cons x rest ih =>
    unfold common.findSchemaIssue.loop
    constructor
    · intro hnot
      have hx : ¬ x = issue := fun h => hnot (h ▸ List.mem_cons_self _ _)
      have hrest : issue ∉ rest := fun h => hnot (List.mem_cons_of_mem _ h)
      rw [if_neg hx]
      exact (ih (i + 1) ind).1 hrest
    · intro _
      by_cases hrest : issue ∈ rest
      · obtain ⟨j, hj, hget, hloop⟩ := (ih (i + 1) (if x = issue then (i : Int) else ind)).2 hrest
        refine ⟨j + 1, by simpa using hj, by simpa using hget, ?_⟩
        rw [hloop]
        congr 1
        omega
      · have hx : x = issue := by
          rcases List.mem_cons.1 ‹issue ∈ x :: rest› with h | h
          · exact h.symm
          · exact absurd h hrest
        rw [(ih (i + 1) _).1 hrest, if_pos hx]
        exact ⟨0, by simp, by simp [hx], by simp⟩

theorem common.removeSchemaIssue_of_not_mem (s : List internal.SchemaIssue)
    (issue : internal.SchemaIssue) (h : issue ∉ s) : common.removeSchemaIssue s issue = s := by
  have hfind : common.findSchemaIssue s issue = -1 :=
    (common.findSchemaIssue.loop_spec issue s 0 (-1)).1 h
  simp [common.removeSchemaIssue, hfind]

/-- When the issue occurs, `removeSchemaIssue` deletes one position holding it. -/
theorem common.removeSchemaIssue_of_mem (s : List internal.SchemaIssue)
    (issue : internal.SchemaIssue) (h : issue ∈ s) :
    ∃ j, j < s.length ∧ s[j]? = some issue ∧
      common.removeSchemaIssue s issue = s.take j ++ s.drop (j + 1) := by
  obtain ⟨j, hj, hget, hloop⟩ := (common.findSchemaIssue.loop_spec issue s 0 (-1)).2 h
  refine ⟨j, hj, hget, ?_⟩
  have hfind : common.findSchemaIssue s issue = (j : Int) := by
    unfold common.findSchemaIssue
    rw [hloop]
    simp
  have hne : (j : Int) ≠ -1 := by omega
  simp [common.removeSchemaIssue, hfind, hne]

/-- Removing an issue lowers its number of occurrences by one (or leaves it at
zero). -/
theorem common.count_removeSchemaIssue (s : List internal.SchemaIssue)
    (issue : internal.SchemaIssue) :
    (common.removeSchemaIssue s issue).count issue = s.count issue - 1 := by
  by_cases h : issue ∈ s
  · obtain ⟨j, hj, hget, hrem⟩ := common.removeSchemaIssue_of_mem s issue h
    have hsplit : s = s.take j ++ issue :: s.drop (j + 1) := by
      have h1 : s[j] = issue := by
        have := List.getElem?_eq_getElem hj
        rw [this] at hget
        exact Option.some.inj hget
      conv_lhs => rw [← List.take_append_drop j s, List.drop_eq_getElem_cons hj, h1]
    have hcount : s.count issue
        = (s.take j).count issue + ((s.drop (j + 1)).count issue + 1) := by
      conv_lhs => rw [hsplit]
      rw [List.count_append, List.count_cons_self]
    rw [hrem, List.count_append, hcount]
    omega
  · rw [common.removeSchemaIssue_of_not_mem s issue h, List.count_eq_zero_of_not_mem h]

/-! ## Lemmas on the row-limit validator -/

theorem common.checkIfColumnIsPartOfSpSchemaPK_eq (id : GoString) (pks : List ddl.IndexKey) :
    (!common.checkIfColumnIsPartOfSpSchemaPK id pks)
      = pks.all (fun key => decide (key.ColId ≠ id)) := by
  induction pks with
  | nil => rfl
  | cons key rest ih =>
    by_cases hk : key.ColId = id
    · simp [common.checkIfColumnIsPartOfSpSchemaPK, hk]
    · simp only [common.checkIfColumnIsPartOfSpSchemaPK, if_neg hk, ih, List.all_cons]
      simp [hk]

/-- The accumulated total agrees, modulo the width of `int`, with the starting
value plus the exact sum of the sizes of the non-key columns. -/
theorem common.ComputeNonKeyColumnSize.wrapInt_total (d : ddl.Consts)
    (pks : List ddl.IndexKey) (colDefs : List (GoString × ddl.ColumnDef)) (total : Int) :
    wrapInt (common.ComputeNonKeyColumnSize.total d pks colDefs total) =
      wrapInt (total + ((colDefs.filter
        (fun e => pks.all (fun key => decide (key.ColId ≠ e.2.Id)))).map
        (fun e => common.getColumnSize d e.2.T.Name e.2.T.Len)).sum) := by
  induction colDefs generalizing total with
  | nil => simp [common.ComputeNonKeyColumnSize.total]
  | cons e rest ih =>
    have hstep := ih (if !common.checkIfColumnIsPartOfSpSchemaPK e.2.Id pks then
        wrapInt (total + common.getColumnSize d e.2.T.Name e.2.T.Len) else total)
    unfold common.ComputeNonKeyColumnSize.total at hstep ⊢
    rw [List.foldl_cons, hstep]
    rw [common.checkIfColumnIsPartOfSpSchemaPK_eq]
    by_cases hp : pks.all (fun key => decide (key.ColId ≠ e.2.Id)) = true
    · have hf : (e :: rest).filter (fun e => pks.all (fun key => decide (key.ColId ≠ e.2.Id)))
          = e :: rest.filter (fun e => pks.all (fun key => decide (key.ColId ≠ e.2.Id))) :=
        List.filter_cons_of_pos hp
      rw [if_pos hp, hf, List.map_cons, List.sum_cons, wrapInt_add_left]
      congr 1
      omega
    · have hf : (e :: rest).filter (fun e => pks.all (fun key => decide (key.ColId ≠ e.2.Id)))
          = rest.filter (fun e => pks.all (fun key => decide (key.ColId ≠ e.2.Id))) :=
        List.filter_cons_of_neg hp
      rw [if_neg hp, hf]

/-- The accumulated total stays a value of type `int`. -/
theorem common.ComputeNonKeyColumnSize.total_inRange (d : ddl.Consts)
    (pks : List ddl.IndexKey) (colDefs : List (GoString × ddl.ColumnDef)) (total : Int)
    (h : wrapInt total = total) :
    wrapInt (common.ComputeNonKeyColumnSize.total d pks colDefs total) =
      common.ComputeNonKeyColumnSize.total d pks colDefs total := by
  induction colDefs generalizing total with
  | nil => simpa [common.ComputeNonKeyColumnSize.total] using h
  | cons e rest ih =>
    unfold common.ComputeNonKeyColumnSize.total at ih ⊢
    rw [List.foldl_cons]
    apply ih
    by_cases hp : (!common.checkIfColumnIsPartOfSpSchemaPK e.2.Id pks) = true
    · rw [if_pos hp, wrapInt_idem]
    · rw [if_neg hp, h]

/-- The total computed by the validator for a table is the Go `int` value of
the exact sum of its non-key column sizes. -/
theorem common.ComputeNonKeyColumnSize.total_eq (d : ddl.Consts) (table : ddl.CreateTable) :
    common.ComputeNonKeyColumnSize.total d table.PrimaryKeys table.ColDefs.entries 0 =
      wrapInt (nonKeyColumnSizes d table).sum := by
  rw [← common.ComputeNonKeyColumnSize.total_inRange d _ _ 0 (by decide),
    common.ComputeNonKeyColumnSize.wrapInt_total, Int.zero_add]
  rfl

/-- The table-level issue list of the validated table after the call. -/
theorem common.tableLevelIssues_ComputeNonKeyColumnSize (d : ddl.Consts) (conv : internal.Conv)
    (tableId : GoString) :
    tableLevelIssues (common.ComputeNonKeyColumnSize d conv tableId) tableId =
      if wrapInt (nonKeyColumnSizes d (conv.SpSchema.getD tableId)).sum
          > d.MaxNonKeyColumnLength then
        common.removeSchemaIssue (tableLevelIssues conv tableId)
          internal.SchemaIssue.RowLimitExceeded ++ [internal.SchemaIssue.RowLimitExceeded]
      else
        common.removeSchemaIssue (tableLevelIssues conv tableId)
          internal.SchemaIssue.RowLimitExceeded := by
  unfold tableLevelIssues common.ComputeNonKeyColumnSize
  simp only [GoMap.getD_set_self, common.ComputeNonKeyColumnSize.total_eq]

/-- Number of `RowLimitExceeded` entries of the validated table after the call. -/
theorem common.count_ComputeNonKeyColumnSize (d : ddl.Consts) (conv : internal.Conv)
    (tableId : GoString) :
    (tableLevelIssues (common.ComputeNonKeyColumnSize d conv tableId) tableId).count
        internal.SchemaIssue.RowLimitExceeded =
      ((tableLevelIssues conv tableId).count internal.SchemaIssue.RowLimitExceeded - 1) +
        (if wrapInt (nonKeyColumnSizes d (conv.SpSchema.getD tableId)).sum
          > d.MaxNonKeyColumnLength then 1 else 0) := by
  rw [common.tableLevelIssues_ComputeNonKeyColumnSize]
  split
  · rw [List.count_append, common.count_removeSchemaIssue]
    simp
  · rw [common.count_removeSchemaIssue]
    simp

/-! ## Lemmas on the ordering initializers -/

theorem schema.length_orderedFrom (n : Nat) (keys : List schema.Key) :
    (schema.orderedFrom n keys).length = keys.length := by
  induction keys generalizing n with
  | nil => rfl
  | cons key rest ih => simp [schema.orderedFrom, ih]

/-- C1 (as stated, refuted): with a prior ledger holding `RowLimitExceeded`
twice for a table whose only non-key column takes one byte,
`ComputeNonKeyColumnSize` leaves one `RowLimitExceeded` in the list although
the non-key size does not exceed the limit. -/
theorem ComputeNonKeyColumnSize_stale_duplicate_survives :
    ¬ (internal.SchemaIssue.RowLimitExceeded ∈
          tableLevelIssues (common.ComputeNonKeyColumnSize ddl.upstream exampleConvDuplicated "t1")
            "t1" ↔
        (nonKeyColumnSizes ddl.upstream (exampleConvDuplicated.SpSchema.getD "t1")).sum
          > ddl.upstream.MaxNonKeyColumnLength) := by
  decide

/-- C1 (amended): for every context whose table-level issue list for the
table holds `RowLimitExceeded` at most once, after
`ComputeNonKeyColumnSize conv tableId` the list contains `RowLimitExceeded`
if and only if the sum of `getColumnSize` over the column definitions of the
target table whose `Id` is not a primary-key column, taken as the Go `int`
the code accumulates, is strictly greater than `ddl.MaxNonKeyColumnLength`;
whenever the exact sum fits in 64 bits this is the exact sum. -/
theorem ComputeNonKeyColumnSize_rowLimit_iff (d : ddl.Consts) (conv : internal.Conv)
    (tableId : GoString)
    (hOnce : (tableLevelIssues conv tableId).count internal.SchemaIssue.RowLimitExceeded ≤ 1) :
    (internal.SchemaIssue.RowLimitExceeded ∈
        tableLevelIssues (common.ComputeNonKeyColumnSize d conv tableId) tableId ↔
      wrapInt (nonKeyColumnSizes d (conv.SpSchema.getD tableId)).sum
        > d.MaxNonKeyColumnLength) ∧
    (-2 ^ 63 ≤ (nonKeyColumnSizes d (conv.SpSchema.getD tableId)).sum ∧
        (nonKeyColumnSizes d (conv.SpSchema.getD tableId)).sum < 2 ^ 63 →
      (internal.SchemaIssue.RowLimitExceeded ∈
          tableLevelIssues (common.ComputeNonKeyColumnSize d conv tableId) tableId ↔
        (nonKeyColumnSizes d (conv.SpSchema.getD tableId)).sum > d.MaxNonKeyColumnLength)) := by
  have hiff : internal.SchemaIssue.RowLimitExceeded ∈
        tableLevelIssues (common.ComputeNonKeyColumnSize d conv tableId) tableId ↔
      wrapInt (nonKeyColumnSizes d (conv.SpSchema.getD tableId)).sum
        > d.MaxNonKeyColumnLength := by
    rw [← List.count_pos_iff, common.count_ComputeNonKeyColumnSize]
    split <;> omega
  refine ⟨hiff, ?_⟩
  intro hRange
  rw [hiff, wrapInt_of_inRange _ hRange]

/-- Witness of C1 (amended): a stale single `RowLimitExceeded` on a one-byte
table is removed. -/
theorem ComputeNonKeyColumnSize_rowLimit_iff_witness :
    (tableLevelIssues exampleConvStale "t1").count internal.SchemaIssue.RowLimitExceeded ≤ 1 ∧
    ((internal.SchemaIssue.RowLimitExceeded ∈
        tableLevelIssues (common.ComputeNonKeyColumnSize ddl.upstream exampleConvStale "t1") "t1" ↔
      wrapInt (nonKeyColumnSizes ddl.upstream (exampleConvStale.SpSchema.getD "t1")).sum
        > ddl.upstream.MaxNonKeyColumnLength) ∧
    (-2 ^ 63 ≤ (nonKeyColumnSizes ddl.upstream (exampleConvStale.SpSchema.getD "t1")).sum ∧
        (nonKeyColumnSizes ddl.upstream (exampleConvStale.SpSchema.getD "t1")).sum < 2 ^ 63 →
      (internal.SchemaIssue.RowLimitExceeded ∈
          tableLevelIssues (common.ComputeNonKeyColumnSize ddl.upstream exampleConvStale "t1")
            "t1" ↔
        (nonKeyColumnSizes ddl.upstream (exampleConvStale.SpSchema.getD "t1")).sum
          > ddl.upstream.MaxNonKeyColumnLength))) :=
  ⟨by decide, ComputeNonKeyColumnSize_rowLimit_iff ddl.upstream exampleConvStale "t1" (by decide)⟩

/-- C3: boundary of the row limit.  Starting from a ledger in which the table
has no `RowLimitExceeded`, validating a table whose non-key column sizes sum
to exactly `ddl.MaxNonKeyColumnLength` leaves it absent; validating again
after an edit that makes the sum one byte larger makes it present; validating
again after an edit that brings the sum back to the maximum makes it absent.
The constant is taken to fit a Go `int` with room for one more byte. -/
theorem ComputeNonKeyColumnSize_boundary (d : ddl.Consts) (conv : internal.Conv)
    (tableId : GoString) (sp₂ sp₃ : GoMap ddl.CreateTable)
    (hMax : -2 ^ 63 ≤ d.MaxNonKeyColumnLength ∧ d.MaxNonKeyColumnLength + 1 < 2 ^ 63)
    (hAbsent : internal.SchemaIssue.RowLimitExceeded ∉ tableLevelIssues conv tableId)
    (h₁ : (nonKeyColumnSizes d (conv.SpSchema.getD tableId)).sum = d.MaxNonKeyColumnLength)
    (h₂ : (nonKeyColumnSizes d (sp₂.getD tableId)).sum = d.MaxNonKeyColumnLength + 1)
    (h₃ : (nonKeyColumnSizes d (sp₃.getD tableId)).sum = d.MaxNonKeyColumnLength) :
    internal.SchemaIssue.RowLimitExceeded ∉
        tableLevelIssues (common.ComputeNonKeyColumnSize d conv tableId) tableId ∧
      internal.SchemaIssue.RowLimitExceeded ∈
        tableLevelIssues
          (common.ComputeNonKeyColumnSize d
            { common.ComputeNonKeyColumnSize d conv tableId with SpSchema := sp₂ } tableId)
          tableId ∧
      internal.SchemaIssue.RowLimitExceeded ∉
        tableLevelIssues
          (common.ComputeNonKeyColumnSize d
            { common.ComputeNonKeyColumnSize d
                { common.ComputeNonKeyColumnSize d conv tableId with SpSchema := sp₂ }
                tableId with SpSchema := sp₃ } tableId)
          tableId := by
  have hw₁ : wrapInt d.MaxNonKeyColumnLength = d.MaxNonKeyColumnLength :=
    wrapInt_of_inRange _ ⟨hMax.1, by omega⟩
  have hw₂ : wrapInt (d.MaxNonKeyColumnLength + 1) = d.MaxNonKeyColumnLength + 1 :=
    wrapInt_of_inRange _ ⟨by omega, hMax.2⟩
  have hc₀ : (tableLevelIssues conv tableId).count internal.SchemaIssue.RowLimitExceeded = 0 :=
    List.count_eq_zero_of_not_mem hAbsent
  have hc₁ := common.count_ComputeNonKeyColumnSize d conv tableId
  rw [h₁, hw₁, hc₀, if_neg (lt_irrefl _)] at hc₁
  have hc₂ : (tableLevelIssues
      (common.ComputeNonKeyColumnSize d
        { common.ComputeNonKeyColumnSize d conv tableId with SpSchema := sp₂ } tableId)
      tableId).count internal.SchemaIssue.RowLimitExceeded =
      ((tableLevelIssues (common.ComputeNonKeyColumnSize d conv tableId) tableId).count
          internal.SchemaIssue.RowLimitExceeded - 1) +
        (if wrapInt (nonKeyColumnSizes d (sp₂.getD tableId)).sum > d.MaxNonKeyColumnLength
          then 1 else 0) :=
    common.count_ComputeNonKeyColumnSize d
      { common.ComputeNonKeyColumnSize d conv tableId with SpSchema := sp₂ } tableId
  rw [hc₁, h₂, hw₂, if_pos (by omega)] at hc₂
  have hc₃ : (tableLevelIssues
      (common.ComputeNonKeyColumnSize d
        { common.ComputeNonKeyColumnSize d
            { common.ComputeNonKeyColumnSize d conv tableId with SpSchema := sp₂ }
            tableId with SpSchema := sp₃ } tableId)
      tableId).count internal.SchemaIssue.RowLimitExceeded =
      ((tableLevelIssues
          (common.ComputeNonKeyColumnSize d
            { common.ComputeNonKeyColumnSize d conv tableId with SpSchema := sp₂ } tableId)
          tableId).count internal.SchemaIssue.RowLimitExceeded - 1) +
        (if wrapInt (nonKeyColumnSizes d (sp₃.getD tableId)).sum > d.MaxNonKeyColumnLength
          then 1 else 0) :=
    common.count_ComputeNonKeyColumnSize d
      { common.ComputeNonKeyColumnSize d
          { common.ComputeNonKeyColumnSize d conv tableId with SpSchema := sp₂ }
          tableId with SpSchema := sp₃ } tableId
  rw [hc₂, h₃, hw₁, if_neg (lt_irrefl _)] at hc₃
  refine ⟨?_, ?_, ?_⟩
  · rw [← List.count_pos_iff]; omega
  · rw [← List.count_pos_iff]; omega
  · rw [← List.count_pos_iff]; omega

/-- Witness of C3 at the upstream constants: a table with one non-key column of
declared size 1677721600, then with one more one-byte column, then without it. -/
theorem ComputeNonKeyColumnSize_boundary_witness :
    internal.SchemaIssue.RowLimitExceeded ∉
        tableLevelIssues (common.ComputeNonKeyColumnSize ddl.upstream exampleConvAtLimit "t1")
          "t1" ∧
      internal.SchemaIssue.RowLimitExceeded ∈
        tableLevelIssues
          (common.ComputeNonKeyColumnSize ddl.upstream
            { common.ComputeNonKeyColumnSize ddl.upstream exampleConvAtLimit "t1" with
              SpSchema := GoMap.empty.set "t1" exampleTableOverLimit } "t1")
          "t1" ∧
      internal.SchemaIssue.RowLimitExceeded ∉
        tableLevelIssues
          (common.ComputeNonKeyColumnSize ddl.upstream
            { common.ComputeNonKeyColumnSize ddl.upstream
                { common.ComputeNonKeyColumnSize ddl.upstream exampleConvAtLimit "t1" with
                  SpSchema := GoMap.empty.set "t1" exampleTableOverLimit }
                "t1" with SpSchema := GoMap.empty.set "t1" exampleTableAtLimit } "t1")
          "t1" :=
  ComputeNonKeyColumnSize_boundary ddl.upstream exampleConvAtLimit "t1"
    (GoMap.empty.set "t1" exampleTableOverLimit) (GoMap.empty.set "t1" exampleTableAtLimit)
    (by decide) (by decide) (by decide) (by decide) (by decide)

/-! ## Dialect type mapper: stated properties -/

/-- C4: for every input type with `IsArray = true` (any `Name`, any `Len`) and
both values of `isPk`, `ToPGDialectType` returns the type
`{Name: String, Len: MaxLength, IsArray: false}` and the issue list
`[ArrayTypeNotSupported]`; the array rule wins over the numeric-primary-key
rule. -/
theorem ToPGDialectType_array (d : ddl.Consts) (standardType : ddl.Type) (isPk : Bool)
    (hArray : standardType.IsArray = true) :
    common.ToPGDialectType d standardType isPk =
      ({ Name := d.String, Len := d.MaxLength, IsArray := false },
        [internal.SchemaIssue.ArrayTypeNotSupported]) := by
  unfold common.ToPGDialectType
  rw [if_pos hArray]

/-- Witness of C4: a numeric array used as primary key gets the array rule. -/
theorem ToPGDialectType_array_witness :
    ({ Name := "NUMERIC", Len := 5, IsArray := true } : ddl.Type).IsArray = true ∧
      common.ToPGDialectType ddl.upstream { Name := "NUMERIC", Len := 5, IsArray := true } true =
        ({ Name := ddl.upstream.String, Len := ddl.upstream.MaxLength, IsArray := false },
          [internal.SchemaIssue.ArrayTypeNotSupported]) :=
  ⟨rfl, ToPGDialectType_array ddl.upstream { Name := "NUMERIC", Len := 5, IsArray := true } true rfl⟩

/-- C5: for every non-array type whose `Name` is `Numeric` (any `Len`),
`ToPGDialectType` with `isPk = true` returns
`{Name: String, Len: MaxLength, IsArray: false}` with issue list
`[NumericPKNotSupported]`, and with `isPk = false` returns the input type
unchanged with no issues. -/
theorem ToPGDialectType_numeric (d : ddl.Consts) (standardType : ddl.Type)
    (hArray : standardType.IsArray = false) (hName : standardType.Name = d.Numeric) :
    common.ToPGDialectType d standardType true =
        ({ Name := d.String, Len := d.MaxLength, IsArray := false },
          [internal.SchemaIssue.NumericPKNotSupported]) ∧
      common.ToPGDialectType d standardType false = (standardType, []) := by
  unfold common.ToPGDialectType
  simp [hArray, hName]

/-- Witness of C5 at the upstream constants. -/
theorem ToPGDialectType_numeric_witness :
    common.ToPGDialectType ddl.upstream { Name := "NUMERIC", Len := 0, IsArray := false } true =
        ({ Name := "STRING", Len := 9223372036854775807, IsArray := false },
          [internal.SchemaIssue.NumericPKNotSupported]) ∧
      common.ToPGDialectType ddl.upstream { Name := "NUMERIC", Len := 0, IsArray := false } false =
        ({ Name := "NUMERIC", Len := 0, IsArray := false }, []) :=
  ToPGDialectType_numeric ddl.upstream { Name := "NUMERIC", Len := 0, IsArray := false } rfl rfl

/-- C6: pass-through rule.  For every type `t` with `IsArray = false` and every
`isPk` such that not (`isPk` and `t.Name = Numeric`), `ToPGDialectType t isPk`
returns `t` itself and an empty issue list; in particular a primary-key column
of a non-numeric type is left unchanged. -/
theorem ToPGDialectType_passThrough (d : ddl.Consts) (standardType : ddl.Type) (isPk : Bool)
    (hArray : standardType.IsArray = false)
    (hRule : ¬ (isPk = true ∧ standardType.Name = d.Numeric)) :
    common.ToPGDialectType d standardType isPk = (standardType, []) := by
  unfold common.ToPGDialectType
  have hcond : ¬ ((isPk && standardType.Name == d.Numeric) = true) := by
    simpa using hRule
  rw [if_neg (by simp [hArray]), if_neg hcond]

/-- Witness of C6: a sized string primary-key column is left unchanged. -/
theorem ToPGDialectType_passThrough_witness :
    common.ToPGDialectType ddl.upstream { Name := "STRING", Len := 50, IsArray := false } true =
      ({ Name := "STRING", Len := 50, IsArray := false }, []) :=
  ToPGDialectType_passThrough ddl.upstream { Name := "STRING", Len := 50, IsArray := false } true
    rfl (by decide)

/-- A loop that appends the elements satisfying `p` computes a filter. -/
theorem List.foldl_append_if_eq_filter {α : Type} (p : α → Bool) (b acc : List α) :
    b.foldl (fun set v => if p v = true then set ++ [v] else set) acc = acc ++ b.filter p := by
  induction b generalizing acc with
  | nil => simp
  | cons v rest ih =>
    rw [List.foldl_cons, ih]
    by_cases hp : p v = true
    · rw [if_pos hp, List.filter_cons_of_pos hp, List.append_assoc]
      rfl
    · rw [if_neg hp, List.filter_cons_of_neg hp]

/-- Closed form of `IntersectionOfTwoStringSlices`: the elements of `b` that
occur in `a`, in the order and with the multiplicity they have in `b`. -/
theorem common.IntersectionOfTwoStringSlices_eq_filter (a b : List GoString) :
    common.IntersectionOfTwoStringSlices a b = b.filter (fun v => decide (v ∈ a)) := by
  unfold common.IntersectionOfTwoStringSlices
  simp only []
  rw [List.foldl_append_if_eq_filter, List.nil_append]
  apply List.filter_congr
  intro v _
  have h := GoMap.isSome_get?_foldl_set a GoMap.empty v
  simp only [GoMap.get?_empty, Option.isSome_none, Bool.false_eq_true, or_false] at h
  by_cases hv : v ∈ a
  · rw [h.2 hv]; simp [hv]
  · have hnot : ¬ ((List.foldl (fun hash x => hash.set x ()) GoMap.empty a).get? v).isSome = true :=
      fun hs => hv (h.1 hs)
    simp [hv, hnot]

/-- C8: `IntersectionOfTwoStringSlices` is a set intersection by membership:
`x` occurs in the result if and only if it occurs in `a` and in `b`; hence the
results for `(a, b)` and `(b, a)` have the same members. -/
theorem IntersectionOfTwoStringSlices_mem (a b : List GoString) (x : GoString) :
    (x ∈ common.IntersectionOfTwoStringSlices a b ↔ x ∈ a ∧ x ∈ b) ∧
      (x ∈ common.IntersectionOfTwoStringSlices a b ↔
        x ∈ common.IntersectionOfTwoStringSlices b a) := by
  have key : ∀ a b : List GoString,
      x ∈ common.IntersectionOfTwoStringSlices a b ↔ x ∈ a ∧ x ∈ b := by
    intro a b
    rw [common.IntersectionOfTwoStringSlices_eq_filter, List.mem_filter]
    simp only [decide_eq_true_eq]
    exact And.comm
  refine ⟨key a b, ?_⟩
  rw [key a b, key b a]
  exact And.comm

/-- C9 (as stated, refuted): an identifier that occurs twice in the second
slice occurs twice in the result. -/
theorem IntersectionOfTwoStringSlices_duplicate :
    ¬ (common.IntersectionOfTwoStringSlices ["c1"] ["c1", "c1"]).Nodup := by
  decide

/-- C9 (amended): for all string lists `a` and `b` such that `b` has no
duplicates, the result of `IntersectionOfTwoStringSlices a b` has no
duplicates. -/
theorem IntersectionOfTwoStringSlices_nodup (a b : List GoString) (hb : b.Nodup) :
    (common.IntersectionOfTwoStringSlices a b).Nodup := by
  rw [common.IntersectionOfTwoStringSlices_eq_filter]
  exact hb.filter _

/-- Witness of C9 (amended): duplicates of the first slice do not matter. -/
theorem IntersectionOfTwoStringSlices_nodup_witness :
    (["c2", "c1", "c3"] : List GoString).Nodup ∧
      (common.IntersectionOfTwoStringSlices ["c1", "c1", "c2"] ["c2", "c1", "c3"]).Nodup :=
  ⟨by decide, IntersectionOfTwoStringSlices_nodup ["c1", "c1", "c2"] ["c2", "c1", "c3"] (by decide)⟩

/-- C10 (as stated, refuted): for `a = [c1, c2]` and `b = [c2, c1]` the result
is `[c2, c1]`, not the elements of `a` that occur in `b` in the order of `a`. -/
theorem IntersectionOfTwoStringSlices_not_in_order_of_first :
    common.IntersectionOfTwoStringSlices ["c1", "c2"] ["c2", "c1"] ≠
      (["c1", "c2"] : List GoString).filter (fun v => decide (v ∈ (["c2", "c1"] : List GoString))) := by
  decide

/-- C10 (amended): the elements of `IntersectionOfTwoStringSlices a b` are in
the order of `b`: the result equals the sequence obtained by scanning `b` from
first to last and keeping the elements that occur in `a`. -/
theorem IntersectionOfTwoStringSlices_order (a b : List GoString) :
    common.IntersectionOfTwoStringSlices a b = b.filter (fun v => decide (v ∈ a)) :=
  common.IntersectionOfTwoStringSlices_eq_filter a b

/-! ## Lemmas on the string order and on sorting -/

theorem GoString.leChars_total (a b : List Char) :
    GoString.leChars a b = true ∨ GoString.leChars b a = true := by
  induction a generalizing b with
  | nil => left; cases b <;> rfl
  | cons x xs ih =>
    cases b with
    | nil => right; rfl
    | cons y ys =>
      simp only [GoString.leChars]
      by_cases h1 : x.toNat < y.toNat
      · left; simp [h1]
      · by_cases h2 : y.toNat < x.toNat
        · right; simp [h2]
        · simp only [h1, h2, if_false]
          exact ih ys

theorem GoString.leChars_trans (a b c : List Char) (hab : GoString.leChars a b = true)
    (hbc : GoString.leChars b c = true) : GoString.leChars a c = true := by
  induction a generalizing b c with
  | nil => cases c <;> rfl
  | cons x xs ih =>
    cases b with
    | nil => simp [GoString.leChars] at hab
    | cons y ys =>
      cases c with
      | nil => simp [GoString.leChars] at hbc
      | cons z zs =>
        simp only [GoString.leChars] at hab hbc ⊢
        by_cases h1 : x.toNat < y.toNat
        · by_cases h2 : y.toNat < z.toNat
          · have : x.toNat < z.toNat := by omega
            simp [this]
          · by_cases h3 : z.toNat < y.toNat
            · simp [h2, h3] at hbc
            · have : x.toNat < z.toNat := by omega
              simp [this]
        · by_cases h1' : y.toNat < x.toNat
          · simp [h1, h1'] at hab
          · simp only [h1, h1', if_false] at hab
            by_cases h2 : y.toNat < z.toNat
            · have : x.toNat < z.toNat := by omega
              simp [this]
            · by_cases h3 : z.toNat < y.toNat
              · simp [h2, h3] at hbc
              · simp only [h2, h3, if_false] at hbc
                have e1 : ¬ x.toNat < z.toNat := by omega
                have e2 : ¬ z.toNat < x.toNat := by omega
                simp only [e1, e2, if_false]
                exact ih ys zs hab hbc

theorem GoString.leChars_antisymm (a b : List Char) (hab : GoString.leChars a b = true)
    (hba : GoString.leChars b a = true) : a = b := by
  induction a generalizing b with
  | nil =>
    cases b with
    | nil => rfl
    | cons y ys => simp [GoString.leChars] at hba
  | cons x xs ih =>
    cases b with
    | nil => simp [GoString.leChars] at hab
    | cons y ys =>
      simp only [GoString.leChars] at hab hba
      by_cases h1 : x.toNat < y.toNat
      · have h2 : ¬ y.toNat < x.toNat := by omega
        simp [h1, h2] at hba
      · by_cases h2 : y.toNat < x.toNat
        · simp [h1, h2] at hab
        · simp only [h1, h2, if_false] at hab hba
          have hxy : x = y := by
            apply Char.ext
            apply UInt32.ext
            have : x.toNat = y.toNat := by omega
            exact this
          rw [hxy, ih ys hab hba]

theorem GoString.le_total (a b : GoString) : GoString.le a b = true ∨ GoString.le b a = true :=
  GoString.leChars_total a.data b.data

theorem GoString.le_trans (a b c : GoString) (hab : GoString.le a b = true)
    (hbc : GoString.le b c = true) : GoString.le a c = true :=
  GoString.leChars_trans a.data b.data c.data hab hbc

theorem GoString.le_antisymm (a b : GoString) (hab : GoString.le a b = true)
    (hba : GoString.le b a = true) : a = b :=
  String.ext (GoString.leChars_antisymm a.data b.data hab hba)

theorem GoString.lt_iff (a b : GoString) :
    GoString.lt a b = true ↔ GoString.le a b = true ∧ a ≠ b := by
  unfold GoString.lt
  constructor
  · intro h
    simp only [Bool.and_eq_true, Bool.not_eq_true', Bool.not_eq_eq_eq_not] at h
    refine ⟨h.1, ?_⟩
    intro hab
    subst hab
    simp [h.1] at h
  · intro h
    have hba : GoString.le b a ≠ true := fun hba => h.2 (GoString.le_antisymm a b h.1 hba)
    simp [h.1, hba]

/-- The result of `sort.Strings` is a rearrangement of its argument. -/
theorem sort.Strings_perm (x : List GoString) : (sort.Strings x).Perm x :=
  List.perm_insertionSort _ x

/-- The result of `sort.Strings` is in non-decreasing order. -/
theorem sort.Strings_sorted (x : List GoString) :
    List.Pairwise (fun a b => GoString.le a b = true) (sort.Strings x) := by
  haveI : IsTotal GoString (fun a b => GoString.le a b = true) := ⟨GoString.le_total⟩
  haveI : IsTrans GoString (fun a b => GoString.le a b = true) := ⟨GoString.le_trans⟩
  exact List.sorted_insertionSort (fun a b => GoString.le a b = true) x

/-- Sorting does not depend on the order of the argument. -/
theorem sort.Strings_congr (x y : List GoString) (h : x.Perm y) :
    sort.Strings x = sort.Strings y := by
  haveI : IsAntisymm GoString (fun a b => GoString.le a b = true) := ⟨GoString.le_antisymm⟩
  exact List.eq_of_perm_of_sorted
    (((sort.Strings_perm x).trans h).trans (sort.Strings_perm y).symm)
    (sort.Strings_sorted x) (sort.Strings_sorted y)

/-- Sorting names that are pairwise distinct gives a strictly increasing list. -/
theorem sort.Strings_strict (x : List GoString) (hx : x.Nodup) :
    List.Pairwise (fun a b => GoString.lt a b = true) (sort.Strings x) := by
  have hnodup : (sort.Strings x).Nodup := (sort.Strings_perm x).nodup_iff.2 hx
  have hboth := (sort.Strings_sorted x).and hnodup
  exact hboth.imp (fun h => (GoString.lt_iff _ _).2 h)

/-! ## Lemmas on the sorted-name resolvers -/

theorem GoMap.lookupEntries_of_mem {V : Type} (l : List (GoString × V))
    (hl : (l.map Prod.fst).Nodup) (e : GoString × V) (he : e ∈ l) :
    GoMap.lookupEntries l e.1 = some e.2 := by
  induction l with
  | nil => cases he
  | cons x xs ih =>
    rw [List.map_cons, List.nodup_cons] at hl
    rcases List.mem_cons.1 he with h | h
    · subst h
      simp [GoMap.lookupEntries]
    · have hne : ¬ x.1 = e.1 := fun hx => hl.1 (hx ▸ List.mem_map_of_mem Prod.fst h)
      simp only [GoMap.lookupEntries, if_neg hne]
      exact ih hl.2 h

theorem GoMap.get?_of_mem {V : Type} (m : GoMap V) (e : GoString × V) (he : e ∈ m.entries) :
    m.get? e.1 = some e.2 :=
  GoMap.lookupEntries_of_mem m.entries m.nodup e he

theorem GoMap.mem_of_lookupEntries {V : Type} (l : List (GoString × V)) (k : GoString) (v : V)
    (h : GoMap.lookupEntries l k = some v) : (k, v) ∈ l := by
  induction l with
  | nil => simp [GoMap.lookupEntries] at h
  | cons x xs ih =>
    by_cases hk : x.1 = k
    · simp only [GoMap.lookupEntries, if_pos hk, Option.some.injEq] at h
      have hx : x = (k, v) := Prod.ext hk h
      rw [hx]
      exact List.mem_cons_self _ _
    · simp only [GoMap.lookupEntries, if_neg hk] at h
      exact List.mem_cons_of_mem _ (ih h)

theorem GoMap.mem_of_get? {V : Type} (m : GoMap V) (k : GoString) (v : V)
    (h : m.get? k = some v) : (k, v) ∈ m.entries :=
  GoMap.mem_of_lookupEntries m.entries k v h

/-- An append loop over a slice is a `map`. -/
theorem List.foldl_append_singleton_eq_map {α β : Type} (f : α → β) (l : List α)
    (acc : List β) : l.foldl (fun out a => out ++ [f a]) acc = acc ++ l.map f := by
  induction l generalizing acc with
  | nil => simp
  | cons a rest ih => rw [List.foldl_cons, ih]; simp

/-- The state after the first loop of the sorted-name resolvers. -/
theorem common.collectTableNames_eq {V : Type} (name : V → GoString)
    (entries : List (GoString × V)) :
    common.collectTableNames name entries =
      (entries.map (fun e => name e.2),
        entries.foldl (fun mp e => mp.set (name e.2) e.1) GoMap.empty) := by
  have key : ∀ (es : List (GoString × V)) (st : List GoString × GoMap GoString),
      es.foldl (fun st e => (st.1 ++ [name e.2], st.2.set (name e.2) e.1)) st =
        (st.1 ++ es.map (fun e => name e.2),
          es.foldl (fun mp e => mp.set (name e.2) e.1) st.2) := by
    intro es
    induction es with
    | nil => intro st; simp
    | cons e rest ih => intro st; rw [List.foldl_cons, ih]; simp
  unfold common.collectTableNames
  rw [key]
  simp

/-- A name that no remaining entry carries keeps its binding. -/
theorem common.nameIdMap_get?_of_not_mem {V : Type} (name : V → GoString)
    (es : List (GoString × V)) (mp : GoMap GoString) (n : GoString)
    (hn : n ∉ es.map (fun e => name e.2)) :
    (es.foldl (fun mp e => mp.set (name e.2) e.1) mp).get? n = mp.get? n := by
  induction es generalizing mp with
  | nil => rfl
  | cons e rest ih =>
    rw [List.map_cons, List.mem_cons, not_or] at hn
    rw [List.foldl_cons, ih _ hn.2, GoMap.get?_set_ne _ _ _ _ hn.1]

/-- Every name carried by an entry is bound to the identifier of an entry
carrying that name. -/
theorem common.nameIdMap_get?_of_mem {V : Type} (name : V → GoString)
    (es : List (GoString × V)) (mp : GoMap GoString) (n : GoString)
    (hn : n ∈ es.map (fun e => name e.2)) :
    ∃ e, e ∈ es ∧ name e.2 = n ∧
      (es.foldl (fun mp e => mp.set (name e.2) e.1) mp).get? n = some e.1 := by
  induction es generalizing mp with
  | nil => cases hn
  | cons e rest ih =>
    rw [List.foldl_cons]
    by_cases hrest : n ∈ rest.map (fun e => name e.2)
    · obtain ⟨e', he', hname, hget⟩ := ih (mp.set (name e.2) e.1) hrest
      exact ⟨e', List.mem_cons_of_mem _ he', hname, hget⟩
    · have hhead : name e.2 = n := by
        rw [List.map_cons, List.mem_cons] at hn
        rcases hn with h | h
        · exact h.symm
        · exact absurd h hrest
      refine ⟨e, List.mem_cons_self _ _, hhead, ?_⟩
      rw [common.nameIdMap_get?_of_not_mem name rest _ n hrest, ← hhead, GoMap.get?_set_self]

/-- When names are pairwise distinct, the name of each entry is bound to the
identifier of that entry. -/
theorem common.nameIdMap_get?_of_nodup {V : Type} (name : V → GoString)
    (es : List (GoString × V)) (hnames : (es.map (fun e => name e.2)).Nodup)
    (e : GoString × V) (he : e ∈ es) :
    (es.foldl (fun mp e => mp.set (name e.2) e.1) GoMap.empty).get? (name e.2) = some e.1 := by
  obtain ⟨e', he', hname, hget⟩ :=
    common.nameIdMap_get?_of_mem name es GoMap.empty (name e.2) (List.mem_map_of_mem _ he)
  have hinj := List.inj_on_of_nodup_map hnames he' he hname
  rw [hget, hinj]

/-- The second loop of the sorted-name resolvers, as a `map` over the sorted
names. -/
theorem common.sortedTableIds_eq {V : Type} (name : V → GoString)
    (entries : List (GoString × V)) :
    (sort.Strings (common.collectTableNames name entries).1).foldl
        (fun sortedTableIds n =>
          sortedTableIds ++ [(common.collectTableNames name entries).2.getD n]) []
      = (sort.Strings (entries.map (fun e => name e.2))).map
          (fun n => (entries.foldl (fun mp e => mp.set (name e.2) e.1) GoMap.empty).getD n) := by
  rw [List.foldl_append_singleton_eq_map, common.collectTableNames_eq]
  simp

/-- Each listed identifier is the identifier of an entry that carries the
sorted name at the same position. -/
theorem common.sortedTableIds_spec {V : Type} (name : V → GoString) (m : GoMap V)
    (n : GoString) (hn : n ∈ sort.Strings (m.entries.map (fun e => name e.2))) :
    ∃ e, e ∈ m.entries ∧ name e.2 = n ∧
      (m.entries.foldl (fun mp e => mp.set (name e.2) e.1) GoMap.empty).getD n = e.1 := by
  have hn' : n ∈ m.entries.map (fun e => name e.2) := (sort.Strings_perm _).mem_iff.1 hn
  obtain ⟨e, he, hname, hget⟩ := common.nameIdMap_get?_of_mem name m.entries GoMap.empty n hn'
  exact ⟨e, he, hname, by simp [GoMap.getD, hget]⟩

/-- The names of the listed identifiers are the sorted names. -/
theorem common.sortedTableIds_names {V : Type} [Inhabited V] (name : V → GoString)
    (m : GoMap V) :
    ((sort.Strings (m.entries.map (fun e => name e.2))).map
        (fun n => (m.entries.foldl (fun mp e => mp.set (name e.2) e.1) GoMap.empty).getD n)).map
        (fun id => name (m.getD id))
      = sort.Strings (m.entries.map (fun e => name e.2)) := by
  rw [List.map_map]
  conv_rhs => rw [← List.map_id (sort.Strings (m.entries.map (fun e => name e.2)))]
  apply List.map_congr_left
  intro n hn
  obtain ⟨e, he, hname, hid⟩ := common.sortedTableIds_spec name m n hn
  have hget : m.getD e.1 = e.2 := by
    simp only [GoMap.getD, GoMap.get?_of_mem m e he, Option.getD_some]
  simp only [Function.comp_apply, id_eq]
  rw [hid, hget, hname]

/-- With pairwise distinct names the listed identifiers are a rearrangement of
the identifiers of the schema. -/
theorem common.sortedTableIds_perm {V : Type} (name : V → GoString) (m : GoMap V)
    (hnames : (m.entries.map (fun e => name e.2)).Nodup) :
    ((sort.Strings (m.entries.map (fun e => name e.2))).map
        (fun n => (m.entries.foldl (fun mp e => mp.set (name e.2) e.1) GoMap.empty).getD n)).Perm
      (m.entries.map Prod.fst) := by
  have h1 := (sort.Strings_perm (m.entries.map (fun e => name e.2))).map
    (fun n => (m.entries.foldl (fun mp e => mp.set (name e.2) e.1) GoMap.empty).getD n)
  refine h1.trans ?_
  rw [List.map_map]
  have h2 : m.entries.map
      ((fun n => (m.entries.foldl (fun mp e => mp.set (name e.2) e.1) GoMap.empty).getD n) ∘
        fun e => name e.2) = m.entries.map Prod.fst := by
    apply List.map_congr_left
    intro e he
    simp [GoMap.getD, common.nameIdMap_get?_of_nodup name m.entries hnames e he]
  rw [h2]

/-- With pairwise distinct names the result does not depend on the order in
which the map is ranged over. -/
theorem common.sortedTableIds_order_irrelevant {V : Type} (name : V → GoString)
    (m m' : GoMap V) (hperm : m'.entries.Perm m.entries)
    (hnames : (m.entries.map (fun e => name e.2)).Nodup) :
    (sort.Strings (m'.entries.map (fun e => name e.2))).map
        (fun n => (m'.entries.foldl (fun mp e => mp.set (name e.2) e.1) GoMap.empty).getD n)
      = (sort.Strings (m.entries.map (fun e => name e.2))).map
        (fun n => (m.entries.foldl (fun mp e => mp.set (name e.2) e.1) GoMap.empty).getD n) := by
  have hnames' : (m'.entries.map (fun e => name e.2)).Nodup :=
    (hperm.map (fun e => name e.2)).nodup_iff.2 hnames
  rw [sort.Strings_congr _ _ (hperm.map (fun e => name e.2))]
  apply List.map_congr_left
  intro n hn
  have hn' : n ∈ m.entries.map (fun e => name e.2) := (sort.Strings_perm _).mem_iff.1 hn
  obtain ⟨e, he, hname⟩ := List.mem_map.1 hn'
  have he' : e ∈ m'.entries := hperm.mem_iff.2 he
  simp only [← hname]
  simp only [GoMap.getD, common.nameIdMap_get?_of_nodup name m.entries hnames e he,
    common.nameIdMap_get?_of_nodup name m'.entries hnames' e he']

/-- Listed identifiers with the same table name are the same identifier. -/
theorem common.sortedTableIds_same_name {V : Type} [Inhabited V] (name : V → GoString)
    (m : GoMap V) (id₁ id₂ : GoString)
    (h₁ : id₁ ∈ (sort.Strings (m.entries.map (fun e => name e.2))).map
      (fun n => (m.entries.foldl (fun mp e => mp.set (name e.2) e.1) GoMap.empty).getD n))
    (h₂ : id₂ ∈ (sort.Strings (m.entries.map (fun e => name e.2))).map
      (fun n => (m.entries.foldl (fun mp e => mp.set (name e.2) e.1) GoMap.empty).getD n))
    (hname : name (m.getD id₁) = name (m.getD id₂)) : id₁ = id₂ := by
  obtain ⟨n₁, hn₁, rfl⟩ := List.mem_map.1 h₁
  obtain ⟨n₂, hn₂, rfl⟩ := List.mem_map.1 h₂
  obtain ⟨e₁, he₁, hname₁, hid₁⟩ := common.sortedTableIds_spec name m n₁ hn₁
  obtain ⟨e₂, he₂, hname₂, hid₂⟩ := common.sortedTableIds_spec name m n₂ hn₂
  have hget₁ : m.getD e₁.1 = e₁.2 := by
    simp only [GoMap.getD, GoMap.get?_of_mem m e₁ he₁, Option.getD_some]
  have hget₂ : m.getD e₂.1 = e₂.2 := by
    simp only [GoMap.getD, GoMap.get?_of_mem m e₂ he₂, Option.getD_some]
  rw [hid₁, hid₂, hget₁, hget₂, hname₁, hname₂] at hname
  rw [hname]

/-! ## Sorted-name resolvers: stated properties -/

/-- C15: for every schema whose table display names are pairwise distinct,
`GetSortedTableIdsBySrcName` (and likewise `GetSortedTableIdsBySpName`)
returns a permutation of the schema's table identifiers in which the names of
the listed tables are in strictly ascending order, and the result is the same
for every order in which the map is ranged over. -/
theorem GetSortedTableIds_distinct_names (srcSchema srcSchema' : GoMap schema.Table)
    (spSchema spSchema' : GoMap ddl.CreateTable)
    (hSrcNames : (srcSchema.entries.map (fun e => e.2.Name)).Nodup)
    (hSpNames : (spSchema.entries.map (fun e => e.2.Name)).Nodup)
    (hSrcRange : srcSchema'.entries.Perm srcSchema.entries)
    (hSpRange : spSchema'.entries.Perm spSchema.entries) :
    ((common.GetSortedTableIdsBySrcName srcSchema).Perm (srcSchema.entries.map Prod.fst) ∧
      List.Pairwise (fun a b => GoString.lt a b = true)
        ((common.GetSortedTableIdsBySrcName srcSchema).map (fun id => (srcSchema.getD id).Name)) ∧
      common.GetSortedTableIdsBySrcName srcSchema' = common.GetSortedTableIdsBySrcName srcSchema) ∧
    ((common.GetSortedTableIdsBySpName spSchema).Perm (spSchema.entries.map Prod.fst) ∧
      List.Pairwise (fun a b => GoString.lt a b = true)
        ((common.GetSortedTableIdsBySpName spSchema).map (fun id => (spSchema.getD id).Name)) ∧
      common.GetSortedTableIdsBySpName spSchema' = common.GetSortedTableIdsBySpName spSchema) := by
  have hsrc : ∀ m : GoMap schema.Table, common.GetSortedTableIdsBySrcName m =
      (sort.Strings (m.entries.map (fun e => e.2.Name))).map
        (fun n => (m.entries.foldl (fun mp e => mp.set e.2.Name e.1) GoMap.empty).getD n) :=
    fun m => common.sortedTableIds_eq (fun t : schema.Table => t.Name) m.entries
  have hsp : ∀ m : GoMap ddl.CreateTable, common.GetSortedTableIdsBySpName m =
      (sort.Strings (m.entries.map (fun e => e.2.Name))).map
        (fun n => (m.entries.foldl (fun mp e => mp.set e.2.Name e.1) GoMap.empty).getD n) :=
    fun m => common.sortedTableIds_eq (fun t : ddl.CreateTable => t.Name) m.entries
  refine ⟨⟨?_, ?_, ?_⟩, ⟨?_, ?_, ?_⟩⟩
  · rw [hsrc]
    exact common.sortedTableIds_perm (fun t : schema.Table => t.Name) srcSchema hSrcNames
  · rw [hsrc, common.sortedTableIds_names (fun t : schema.Table => t.Name) srcSchema]
    exact sort.Strings_strict _ hSrcNames
  · rw [hsrc, hsrc]
    exact common.sortedTableIds_order_irrelevant (fun t : schema.Table => t.Name)
      srcSchema srcSchema' hSrcRange hSrcNames
  · rw [hsp]
    exact common.sortedTableIds_perm (fun t : ddl.CreateTable => t.Name) spSchema hSpNames
  · rw [hsp, common.sortedTableIds_names (fun t : ddl.CreateTable => t.Name) spSchema]
    exact sort.Strings_strict _ hSpNames
  · rw [hsp, hsp]
    exact common.sortedTableIds_order_irrelevant (fun t : ddl.CreateTable => t.Name)
      spSchema spSchema' hSpRange hSpNames

/-- Witness of C15: tables named zeta, alpha, mike under `t1`, `t2`, `t3` give
`[t2, t3, t1]` in either iteration order. -/
theorem GetSortedTableIds_distinct_names_witness :
    (common.GetSortedTableIdsBySrcName exampleNamedSchema = ["t2", "t3", "t1"] ∧
      common.GetSortedTableIdsBySrcName exampleNamedSchemaReordered = ["t2", "t3", "t1"] ∧
      exampleNamedSchemaReordered.entries ≠ exampleNamedSchema.entries) ∧
    ((common.GetSortedTableIdsBySrcName exampleNamedSchema).Perm
        (exampleNamedSchema.entries.map Prod.fst) ∧
      List.Pairwise (fun a b => GoString.lt a b = true)
        ((common.GetSortedTableIdsBySrcName exampleNamedSchema).map
          (fun id => (exampleNamedSchema.getD id).Name)) ∧
      common.GetSortedTableIdsBySrcName exampleNamedSchemaReordered
        = common.GetSortedTableIdsBySrcName exampleNamedSchema) ∧
    ((common.GetSortedTableIdsBySpName exampleTargetSchema).Perm
        (exampleTargetSchema.entries.map Prod.fst) ∧
      List.Pairwise (fun a b => GoString.lt a b = true)
        ((common.GetSortedTableIdsBySpName exampleTargetSchema).map
          (fun id => (exampleTargetSchema.getD id).Name)) ∧
      common.GetSortedTableIdsBySpName exampleTargetSchemaReordered
        = common.GetSortedTableIdsBySpName exampleTargetSchema) :=
  ⟨⟨by decide, by decide, by decide⟩,
    GetSortedTableIds_distinct_names exampleNamedSchema exampleNamedSchemaReordered
      exampleTargetSchema exampleTargetSchemaReordered (by decide) (by decide) (by decide)
      (by decide)⟩

/-- The name-to-id map binds a name to the identifier of the entry ranged over
last among those carrying the name. -/
theorem common.nameIdMap_get?_eq_last {V : Type} (name : V → GoString)
    (es : List (GoString × V)) (mp : GoMap GoString) (n : GoString) :
    (es.foldl (fun mp e => mp.set (name e.2) e.1) mp).get? n
      = ((es.reverse.find? (fun e => decide (name e.2 = n))).map Prod.fst).or (mp.get? n) := by
  induction es generalizing mp with
  | nil => simp
  | cons e rest ih =>
    rw [List.foldl_cons, ih, List.reverse_cons, List.find?_append]
    cases hfind : rest.reverse.find? (fun e => decide (name e.2 = n)) with
    | some e' => simp
    | none =>
      by_cases hn : name e.2 = n
      · subst hn
        simp [GoMap.get?_set_self]
      · have hne : n ≠ name e.2 := fun h => hn h.symm
        simp [hn, GoMap.get?_set_ne _ _ _ _ hne]

/-- C20: for every schema, including one in which several tables share a
display name, the list returned by `GetSortedTableIdsBySrcName` has exactly
one entry per table: it has as many entries as the schema has tables and the
display names of the listed identifiers are, with multiplicity, the display
names of the tables, in non-decreasing order; every entry is a table
identifier of the schema; the entry for a name is the identifier of the table
ranged over last among those carrying the name, so the entries for one name
are all the same identifier, and when two tables share a name the result is
not a permutation of the table identifiers. -/
theorem GetSortedTableIdsBySrcName_shared_names (srcSchema : GoMap schema.Table) :
    (common.GetSortedTableIdsBySrcName srcSchema
        = (sort.Strings (srcSchema.entries.map (fun e => e.2.Name))).map
            (fun n =>
              ((srcSchema.entries.reverse.find? (fun e => decide (e.2.Name = n))).map
                Prod.fst).getD "") ∧
      ((common.GetSortedTableIdsBySrcName srcSchema).map (fun id => (srcSchema.getD id).Name)).Perm
        (srcSchema.entries.map (fun e => e.2.Name))) ∧
    (common.GetSortedTableIdsBySrcName srcSchema).length = srcSchema.entries.length ∧
      (∀ id, id ∈ common.GetSortedTableIdsBySrcName srcSchema →
        (srcSchema.get? id).isSome = true) ∧
      List.Pairwise (fun a b => GoString.le a b = true)
        ((common.GetSortedTableIdsBySrcName srcSchema).map (fun id => (srcSchema.getD id).Name)) ∧
      (∀ id₁ id₂, id₁ ∈ common.GetSortedTableIdsBySrcName srcSchema →
        id₂ ∈ common.GetSortedTableIdsBySrcName srcSchema →
        (srcSchema.getD id₁).Name = (srcSchema.getD id₂).Name → id₁ = id₂) ∧
      (∀ k₁ k₂ t₁ t₂, k₁ ≠ k₂ → srcSchema.get? k₁ = some t₁ → srcSchema.get? k₂ = some t₂ →
        t₁.Name = t₂.Name →
        ¬ (common.GetSortedTableIdsBySrcName srcSchema).Perm (srcSchema.entries.map Prod.fst)) := by
  have hsrc : common.GetSortedTableIdsBySrcName srcSchema =
      (sort.Strings (srcSchema.entries.map (fun e => e.2.Name))).map
        (fun n => (srcSchema.entries.foldl (fun mp e => mp.set e.2.Name e.1) GoMap.empty).getD n) :=
    common.sortedTableIds_eq (fun t : schema.Table => t.Name) srcSchema.entries
  have hsame : ∀ id₁ id₂, id₁ ∈ common.GetSortedTableIdsBySrcName srcSchema →
      id₂ ∈ common.GetSortedTableIdsBySrcName srcSchema →
      (srcSchema.getD id₁).Name = (srcSchema.getD id₂).Name → id₁ = id₂ := by
    intro id₁ id₂ h₁ h₂ hname
    rw [hsrc] at h₁ h₂
    exact common.sortedTableIds_same_name (fun t : schema.Table => t.Name) srcSchema id₁ id₂
      h₁ h₂ hname
  refine ⟨⟨?_, ?_⟩, ?_, ?_, ?_, hsame, ?_⟩
  · rw [hsrc]
    apply List.map_congr_left
    intro n _
    have h := common.nameIdMap_get?_eq_last (fun t : schema.Table => t.Name)
      srcSchema.entries GoMap.empty n
    simp only [GoMap.get?_empty, Option.or_none] at h
    simp only [GoMap.getD, h]
    rfl
  · rw [hsrc, common.sortedTableIds_names (fun t : schema.Table => t.Name) srcSchema]
    exact sort.Strings_perm _
  · rw [hsrc, List.length_map, (sort.Strings_perm _).length_eq, List.length_map]
  · intro id hid
    rw [hsrc] at hid
    obtain ⟨n, hn, rfl⟩ := List.mem_map.1 hid
    obtain ⟨e, he, _, hid'⟩ :=
      common.sortedTableIds_spec (fun t : schema.Table => t.Name) srcSchema n hn
    rw [hid', GoMap.get?_of_mem srcSchema e he]
    rfl
  · rw [hsrc, common.sortedTableIds_names (fun t : schema.Table => t.Name) srcSchema]
    exact sort.Strings_sorted _
  · intro k₁ k₂ t₁ t₂ hne h₁ h₂ hname hperm
    have hk₁ : k₁ ∈ srcSchema.entries.map Prod.fst :=
      List.mem_map_of_mem Prod.fst (GoMap.mem_of_get? srcSchema k₁ t₁ h₁)
    have hk₂ : k₂ ∈ srcSchema.entries.map Prod.fst :=
      List.mem_map_of_mem Prod.fst (GoMap.mem_of_get? srcSchema k₂ t₂ h₂)
    apply hne
    apply hsame k₁ k₂ (hperm.mem_iff.2 hk₁) (hperm.mem_iff.2 hk₂)
    simp only [GoMap.getD, h₁, h₂, Option.getD_some, hname]

/-- Witness of C20: with `t1` and `t2` both named orders and `t3` named items
the result is `[t3, t2, t2]`, whose names items, orders, orders are the names
of the three tables. -/
theorem GetSortedTableIdsBySrcName_shared_names_witness :
    (common.GetSortedTableIdsBySrcName exampleSharedNameSchema = ["t3", "t2", "t2"] ∧
      (common.GetSortedTableIdsBySrcName exampleSharedNameSchema).map
        (fun id => (exampleSharedNameSchema.getD id).Name) = ["items", "orders", "orders"] ∧
      exampleSharedNameSchema.entries.map (fun e => e.2.Name) = ["orders", "orders", "items"]) ∧
      (exampleSharedNameSchema.get? "t2").isSome = true ∧
      ¬ (common.GetSortedTableIdsBySrcName exampleSharedNameSchema).Perm
        (exampleSharedNameSchema.entries.map Prod.fst) :=
  ⟨⟨by decide, by decide, by decide⟩,
    (GetSortedTableIdsBySrcName_shared_names exampleSharedNameSchema).2.2.1 "t2" (by decide),
    (GetSortedTableIdsBySrcName_shared_names exampleSharedNameSchema).2.2.2.2.2 "t1" "t2"
      { exampleSourceTable with Name := "orders" } { exampleSourceTable with Name := "orders" }
      (by decide) (by decide) (by decide) rfl⟩

/-! ## Cross-schema column matcher: stated properties -/

/-- When every name resolves, the resolving loop of `PrepareColumns` returns
the identifiers in order. -/
theorem common.PrepareColumns.resolve_ok
    (GetColIdFromSrcName : GoMap schema.Column → GoString → Except GoError GoString)
    (colDefs : GoMap schema.Column) (srcCols ids acc : List GoString)
    (h : srcCols.map (GetColIdFromSrcName colDefs) = ids.map Except.ok) :
    common.PrepareColumns.resolve GetColIdFromSrcName colDefs srcCols acc
      = Except.ok (acc ++ ids) := by
  induction srcCols generalizing ids acc with
  | nil =>
    cases ids with
    | nil => simp [common.PrepareColumns.resolve]
    | cons i is => simp at h
  | cons c cs ih =>
    cases ids with
    | nil => simp at h
    | cons i is =>
      simp only [List.map_cons, List.cons.injEq] at h
      simp only [common.PrepareColumns.resolve, h.1]
      rw [ih is (acc ++ [i]) h.2]
      simp

/-- C11: for every context, table id and list of source column names each of
which resolves to a column identifier (`ids` lists the resolved identifiers),
`PrepareColumns` returns an error if and only if none of the resolved
identifiers is in the target table's `ColIds`; otherwise it returns, without
error, a non-empty list whose members are exactly the identifiers that are
both resolved source identifiers and target `ColIds`. -/
theorem PrepareColumns_error_iff_no_common
    (GetColIdFromSrcName : GoMap schema.Column → GoString → Except GoError GoString)
    (conv : internal.Conv) (tableId : GoString) (srcCols ids : List GoString)
    (hResolved : srcCols.map (GetColIdFromSrcName (conv.SrcSchema.getD tableId).ColDefs)
      = ids.map Except.ok) :
    ((common.PrepareColumns GetColIdFromSrcName conv tableId srcCols).2 ≠ none ↔
        ∀ id, id ∈ ids → id ∉ (conv.SpSchema.getD tableId).ColIds) ∧
      ((common.PrepareColumns GetColIdFromSrcName conv tableId srcCols).2 = none →
        (common.PrepareColumns GetColIdFromSrcName conv tableId srcCols).1 ≠ [] ∧
        ∀ x, x ∈ (common.PrepareColumns GetColIdFromSrcName conv tableId srcCols).1 ↔
          x ∈ ids ∧ x ∈ (conv.SpSchema.getD tableId).ColIds) := by
  have hres := common.PrepareColumns.resolve_ok GetColIdFromSrcName
    (conv.SrcSchema.getD tableId).ColDefs srcCols ids [] hResolved
  rw [List.nil_append] at hres
  have hmem : ∀ x, x ∈ common.IntersectionOfTwoStringSlices (conv.SpSchema.getD tableId).ColIds ids
      ↔ x ∈ ids ∧ x ∈ (conv.SpSchema.getD tableId).ColIds := by
    intro x
    rw [common.IntersectionOfTwoStringSlices_eq_filter, List.mem_filter]
    simp
  unfold common.PrepareColumns
  simp only [hres]
  by_cases hlen : (common.IntersectionOfTwoStringSlices
      (conv.SpSchema.getD tableId).ColIds ids).length = 0
  · have hnil : common.IntersectionOfTwoStringSlices (conv.SpSchema.getD tableId).ColIds ids = [] :=
      List.length_eq_zero.1 hlen
    simp only [hlen, if_true]
    refine ⟨⟨fun _ id hid hsp => ?_, fun _ => by simp⟩, fun h => by simp at h⟩
    have := (hmem id).2 ⟨hid, hsp⟩
    rw [hnil] at this
    cases this
  · have hne : common.IntersectionOfTwoStringSlices (conv.SpSchema.getD tableId).ColIds ids ≠ [] :=
      fun h => hlen (by rw [h]; rfl)
    simp only [hlen, if_false]
    refine ⟨⟨fun h => absurd rfl h, fun hall => ?_⟩, fun _ => ⟨hne, hmem⟩⟩
    obtain ⟨x, hx⟩ := List.exists_mem_of_ne_nil _ hne
    exact absurd ((hmem x).1 hx).2 (hall x ((hmem x).1 hx).1)

/-- Witness of C11: source columns id, name, age against a target holding the
identifiers of id and name give the 2-element list `[c0, c1]`; against a
target holding none of the three the call fails. -/
theorem PrepareColumns_error_iff_no_common_witness :
    (common.PrepareColumns internal.GetColIdFromSrcName exampleConvCopy "t1"
        ["id", "name", "age"] = (["c0", "c1"], none) ∧
      (common.PrepareColumns internal.GetColIdFromSrcName exampleConvCopyDisjoint "t1"
        ["id", "name", "age"]).2 ≠ none) ∧
    (((common.PrepareColumns internal.GetColIdFromSrcName exampleConvCopy "t1"
          ["id", "name", "age"]).2 ≠ none ↔
        ∀ id, id ∈ ["c0", "c1", "c2"] → id ∉ (exampleConvCopy.SpSchema.getD "t1").ColIds) ∧
      ((common.PrepareColumns internal.GetColIdFromSrcName exampleConvCopy "t1"
          ["id", "name", "age"]).2 = none →
        (common.PrepareColumns internal.GetColIdFromSrcName exampleConvCopy "t1"
          ["id", "name", "age"]).1 ≠ [] ∧
        ∀ x, x ∈ (common.PrepareColumns internal.GetColIdFromSrcName exampleConvCopy "t1"
            ["id", "name", "age"]).1 ↔
          x ∈ ["c0", "c1", "c2"] ∧ x ∈ (exampleConvCopy.SpSchema.getD "t1").ColIds)) :=
  ⟨⟨by decide, by decide⟩,
    PrepareColumns_error_iff_no_common internal.GetColIdFromSrcName exampleConvCopy "t1"
      ["id", "name", "age"] ["c0", "c1", "c2"] rfl⟩

/-- C12: for every element type and all arguments, `PrepareValues` returns an
error if and only if `len(srcCols) != len(values)`; when it returns an error
the returned value list is empty, and when the lengths are equal it does not
fail, whatever `colNameIdMap` and `commonColIds` are. -/
theorem PrepareValues_error_iff_length_mismatch {T : Type} [Inhabited T] (conv : internal.Conv)
    (tableId : GoString) (colNameIdMap : GoMap GoString) (commonColIds srcCols : List GoString)
    (values : List T) :
    ((common.PrepareValues conv tableId colNameIdMap commonColIds srcCols values).2 ≠ none ↔
        srcCols.length ≠ values.length) ∧
      ((common.PrepareValues conv tableId colNameIdMap commonColIds srcCols values).2 ≠ none →
        (common.PrepareValues conv tableId colNameIdMap commonColIds srcCols values).1 = []) ∧
      (srcCols.length = values.length →
        (common.PrepareValues conv tableId colNameIdMap commonColIds srcCols values).2 = none) := by
  unfold common.PrepareValues
  by_cases hlen : srcCols.length = values.length
  · simp [hlen]
  · simp [hlen]

/-- Witness of C12: three source columns with two values fail with an empty
value list; with three values the call succeeds. -/
theorem PrepareValues_error_iff_length_mismatch_witness :
    ((common.PrepareValues exampleConvCopy "t1" exampleColNameIdMap ["c0", "c1"]
        ["id", "name", "age"] ["1", "Bob"]).2 ≠ none ∧
      (common.PrepareValues exampleConvCopy "t1" exampleColNameIdMap ["c0", "c1"]
        ["id", "name", "age"] ["1", "Bob"]).1 = []) ∧
    (common.PrepareValues exampleConvCopy "t1" exampleColNameIdMap ["c0", "c1"]
      ["id", "name", "age"] ["1", "Bob", "30"]).2 = none :=
  ⟨⟨by decide,
      (PrepareValues_error_iff_length_mismatch exampleConvCopy "t1" exampleColNameIdMap
        ["c0", "c1"] ["id", "name", "age"] ["1", "Bob"]).2.1 (by decide)⟩,
    (PrepareValues_error_iff_length_mismatch exampleConvCopy "t1" exampleColNameIdMap
      ["c0", "c1"] ["id", "name", "age"] ["1", "Bob", "30"]).2.2 (by decide)⟩

theorem GoMap.getD_of_get?_some {V : Type} [Inhabited V] (m : GoMap V) (k : GoString) (v : V)
    (h : m.get? k = some v) : m.getD k = v := by
  simp [GoMap.getD, h]

theorem GoMap.getD_of_get?_none {V : Type} [Inhabited V] (m : GoMap V) (k : GoString)
    (h : m.get? k = none) : m.getD k = default := by
  simp [GoMap.getD, h]

theorem List.some_getD_of_lt {α : Type} (l : List α) (j : Nat) (d : α) (h : j < l.length) :
    some (l.getD j d) = l[j]? := by
  rw [List.getD_eq_getElem?_getD, List.getElem?_eq_getElem h]
  rfl

/-- The identifier-to-value map built by `PrepareValues` when the identifiers
of the source columns are pairwise distinct: the identifier of column `j` is
bound to `values[j]`, and no other identifier is bound. -/
theorem common.PrepareValues.map_spec {T : Type} [Inhabited T] (f : GoString → GoString)
    (values : List T) (srcCols : List GoString) (hdist : (srcCols.map f).Nodup)
    (n : Nat) (mp : GoMap T) :
    (∀ j name, srcCols[j]? = some name →
      ((List.enumFrom n srcCols).foldl
        (fun mp p => mp.set (f p.2) (values.getD p.1 default)) mp).get? (f name)
        = some (values.getD (n + j) default)) ∧
    (∀ k, k ∉ srcCols.map f →
      ((List.enumFrom n srcCols).foldl
        (fun mp p => mp.set (f p.2) (values.getD p.1 default)) mp).get? k = mp.get? k) := by
  induction srcCols generalizing n mp with
  | nil => simp
  | cons c cs ih =>
    rw [List.map_cons, List.nodup_cons] at hdist
    obtain ⟨ih1, ih2⟩ := ih hdist.2 (n + 1) (mp.set (f c) (values.getD n default))
    rw [List.enumFrom_cons, List.foldl_cons]
    constructor
    · intro j name hj
      cases j with
      | zero =>
        simp only [List.getElem?_cons_zero, Option.some.injEq] at hj
        subst hj
        rw [ih2 (f c) hdist.1, GoMap.get?_set_self]
        rfl
      | succ j =>
        simp only [List.getElem?_cons_succ] at hj
        rw [ih1 j name hj]
        congr 2
        omega
    · intro k hk
      rw [List.map_cons, List.mem_cons, not_or] at hk
      rw [ih2 k hk.2, GoMap.get?_set_ne _ _ _ _ hk.1]

/-- C13: value realignment.  Whenever `len(srcCols) = len(values)` and
`colNameIdMap` sends the names at the positions of `srcCols` to pairwise
distinct identifiers, `PrepareValues` returns, without error, a list of
exactly `len(commonColIds)` values in which, for every position `i` and every
`j` with `commonColIds[i] = colNameIdMap[srcCols[j]]`, element `i` equals
`values[j]`; every element of the result is the value of such a source
column or the zero value, so values of source columns whose identifier is not
in `commonColIds` are dropped. -/
theorem PrepareValues_realigns {T : Type} [Inhabited T] (conv : internal.Conv)
    (tableId : GoString) (colNameIdMap : GoMap GoString) (commonColIds srcCols : List GoString)
    (values : List T) (hlen : srcCols.length = values.length)
    (hdist : (srcCols.map (fun name => colNameIdMap.getD name)).Nodup) :
    (common.PrepareValues conv tableId colNameIdMap commonColIds srcCols values).2 = none ∧
      (common.PrepareValues conv tableId colNameIdMap commonColIds srcCols values).1.length
        = commonColIds.length ∧
      (∀ (i j : Nat) (name : GoString), srcCols[j]? = some name →
        commonColIds[i]? = some (colNameIdMap.getD name) →
        (common.PrepareValues conv tableId colNameIdMap commonColIds srcCols values).1[i]?
          = values[j]?) ∧
      (∀ (i : Nat) (v : T),
        (common.PrepareValues conv tableId colNameIdMap commonColIds srcCols values).1[i]? = some v →
        (∃ (j : Nat) (name : GoString), srcCols[j]? = some name ∧
          commonColIds[i]? = some (colNameIdMap.getD name) ∧ values[j]? = some v) ∨
        v = default) := by
  have hspec := common.PrepareValues.map_spec (fun name => colNameIdMap.getD name) values
    srcCols hdist 0 GoMap.empty
  have hval : (common.PrepareValues conv tableId colNameIdMap commonColIds srcCols values).1
      = commonColIds.map (fun id =>
          ((List.enumFrom 0 srcCols).foldl
            (fun mp p => mp.set (colNameIdMap.getD p.2) (values.getD p.1 default))
            GoMap.empty).getD id) := by
    unfold common.PrepareValues
    simp only [hlen, ne_eq, not_true_eq_false, if_false, List.enum]
    rw [List.foldl_append_singleton_eq_map, List.nil_append]
  have herr : (common.PrepareValues conv tableId colNameIdMap commonColIds srcCols values).2
      = none := by
    unfold common.PrepareValues
    simp [hlen]
  refine ⟨herr, ?_, ?_, ?_⟩
  · rw [hval, List.length_map]
  · intro i j name hj hi
    have hjlt : j < values.length := by
      rw [← hlen]
      exact (List.getElem?_eq_some_iff.1 hj).1
    rw [hval, List.getElem?_map, hi, Option.map_some',
      GoMap.getD_of_get?_some _ _ _ (hspec.1 j name hj), Nat.zero_add]
    exact List.some_getD_of_lt values j default hjlt
  · intro i v hv
    rw [hval, List.getElem?_map] at hv
    cases hci : commonColIds[i]? with
    | none => rw [hci] at hv; simp at hv
    | some id =>
      rw [hci, Option.map_some', Option.some.injEq] at hv
      by_cases hid : id ∈ srcCols.map (fun name => colNameIdMap.getD name)
      · left
        obtain ⟨name, hname, rfl⟩ := List.mem_map.1 hid
        obtain ⟨j, hjlt, hj⟩ := List.getElem_of_mem hname
        have hj' : srcCols[j]? = some name := by
          rw [List.getElem?_eq_getElem hjlt, hj]
        have hjv : j < values.length := hlen ▸ hjlt
        refine ⟨j, name, hj', rfl, ?_⟩
        rw [← hv, GoMap.getD_of_get?_some _ _ _ (hspec.1 j name hj'), Nat.zero_add]
        exact (List.some_getD_of_lt values j default hjv).symm
      · right
        rw [← hv]
        exact GoMap.getD_of_get?_none _ _ ((hspec.2 id hid).trans (GoMap.get?_empty id))

/-- Witness of C13: source columns id, name, age with values 1, Bob, 30 and the
common identifiers of id and name give `[1, Bob]`. -/
theorem PrepareValues_realigns_witness :
    (common.PrepareValues exampleConvCopy "t1" exampleColNameIdMap ["c0", "c1"]
        ["id", "name", "age"] ["1", "Bob", "30"]).1 = ["1", "Bob"] ∧
    ((common.PrepareValues exampleConvCopy "t1" exampleColNameIdMap ["c0", "c1"]
        ["id", "name", "age"] ["1", "Bob", "30"]).2 = none ∧
      (common.PrepareValues exampleConvCopy "t1" exampleColNameIdMap ["c0", "c1"]
        ["id", "name", "age"] ["1", "Bob", "30"]).1.length = ["c0", "c1"].length ∧
      (common.PrepareValues exampleConvCopy "t1" exampleColNameIdMap ["c0", "c1"]
        ["id", "name", "age"] ["1", "Bob", "30"]).1[1]? = ["1", "Bob", "30"][1]?) :=
  ⟨by decide,
    (PrepareValues_realigns exampleConvCopy "t1" exampleColNameIdMap ["c0", "c1"]
      ["id", "name", "age"] ["1", "Bob", "30"] (by decide) (by decide)).1,
    (PrepareValues_realigns exampleConvCopy "t1" exampleColNameIdMap ["c0", "c1"]
      ["id", "name", "age"] ["1", "Bob", "30"] (by decide) (by decide)).2.1,
    (PrepareValues_realigns exampleConvCopy "t1" exampleColNameIdMap ["c0", "c1"]
      ["id", "name", "age"] ["1", "Bob", "30"] (by decide) (by decide)).2.2.1 1 1 "name"
      (by decide) (by decide)⟩

/-- C14: for every context, table id and list `colIds`, `GetCommonColumnIds`
returns exactly the subsequence of `colIds` made of the identifiers that are
keys of the source table's `ColDefs`, keeping input order and multiplicity; it
returns an empty list when the table has no such column or is absent from the
source schema. -/
theorem GetCommonColumnIds_filter (conv : internal.Conv) (tableId : GoString)
    (colIds : List GoString) :
    common.GetCommonColumnIds conv tableId colIds
        = colIds.filter (fun colId => ((conv.SrcSchema.getD tableId).ColDefs.get? colId).isSome) ∧
      ((∀ colId, colId ∈ colIds → (conv.SrcSchema.getD tableId).ColDefs.get? colId = none) →
        common.GetCommonColumnIds conv tableId colIds = []) ∧
      (conv.SrcSchema.get? tableId = none →
        common.GetCommonColumnIds conv tableId colIds = []) := by
  have hfilter : common.GetCommonColumnIds conv tableId colIds
      = colIds.filter
          (fun colId => ((conv.SrcSchema.getD tableId).ColDefs.get? colId).isSome) := by
    unfold common.GetCommonColumnIds
    simp only []
    rw [List.foldl_append_if_eq_filter, List.nil_append]
  refine ⟨hfilter, ?_, ?_⟩
  · intro hnone
    rw [hfilter, List.filter_eq_nil_iff]
    intro colId hmem
    simp [hnone colId hmem]
  · intro habsent
    rw [hfilter, List.filter_eq_nil_iff]
    intro colId _
    have hzero : conv.SrcSchema.getD tableId = default := by
      simp [GoMap.getD, habsent]
    rw [hzero]
    simp [show (default : schema.Table).ColDefs = GoMap.empty from rfl, GoMap.get?_empty]

/-- Witness of C14: of the requested `[c2, c9, c0, c2]` the source table of
`exampleConvCopy` has `c2` and `c0`; a table that is absent gives the empty
list. -/
theorem GetCommonColumnIds_filter_witness :
    common.GetCommonColumnIds exampleConvCopy "t1" ["c2", "c9", "c0", "c2"] = ["c2", "c0", "c2"] ∧
      common.GetCommonColumnIds exampleConvCopy "t1" ["c8", "c9"] = [] ∧
      common.GetCommonColumnIds exampleConvCopy "t5" ["c2", "c9", "c0", "c2"] = [] :=
  ⟨by decide,
    (GetCommonColumnIds_filter exampleConvCopy "t1" ["c8", "c9"]).2.1 (by decide),
    (GetCommonColumnIds_filter exampleConvCopy "t5" ["c2", "c9", "c0", "c2"]).2.2 (by decide)⟩

/-! ## Schema issue ledger and storage sizes: stated properties -/

/-- The scan of `findSchemaIssue` ends on the last position holding the issue. -/
theorem common.findSchemaIssue.loop_last (issue : internal.SchemaIssue)
    (l : List internal.SchemaIssue) (i : Nat) (ind : Int) (hmem : issue ∈ l) :
    ∃ j, j < l.length ∧ l[j]? = some issue ∧ (∀ k, j < k → l[k]? ≠ some issue) ∧
      common.findSchemaIssue.loop issue l i ind = ((i + j : Nat) : Int) := by
  induction l generalizing i ind with
  | nil => cases hmem
  | cons x rest ih =>
    unfold common.findSchemaIssue.loop
    by_cases hrest : issue ∈ rest
    · obtain ⟨j, hj, hget, hlast, hloop⟩ :=
        ih (i + 1) (if x = issue then (i : Int) else ind) hrest
      refine ⟨j + 1, by simpa using hj, by simpa using hget, ?_, ?_⟩
      · intro k hk
        cases k with
        | zero => omega
        | succ k =>
          rw [List.getElem?_cons_succ]
          exact hlast k (by omega)
      · rw [hloop]
        congr 1
        omega
    · have hx : x = issue := by
        rcases List.mem_cons.1 hmem with h | h
        · exact h.symm
        · exact absurd h hrest
      rw [(common.findSchemaIssue.loop_spec issue rest (i + 1) _).1 hrest, if_pos hx]
      refine ⟨0, by simp, by simp [hx], ?_, by simp⟩
      intro k hk
      cases k with
      | zero => omega
      | succ k =>
        rw [List.getElem?_cons_succ]
        intro hget
        exact hrest (List.mem_iff_getElem?.2 ⟨k, hget⟩)

/-- C16: for every issue list and issue, `findSchemaIssue` returns the
greatest index at which the issue occurs, or `-1` when it does not occur;
`removeSchemaIssue` returns the list with exactly that one element deleted and
all other elements kept in their order, and returns the list unchanged when
the issue does not occur, so the result is one shorter exactly when the issue
was present. -/
theorem findSchemaIssue_removeSchemaIssue_last (schemaissue : List internal.SchemaIssue)
    (issue : internal.SchemaIssue) :
    (issue ∉ schemaissue →
        common.findSchemaIssue schemaissue issue = -1 ∧
          common.removeSchemaIssue schemaissue issue = schemaissue) ∧
      (issue ∈ schemaissue →
        ∃ j : Nat, common.findSchemaIssue schemaissue issue = (j : Int) ∧
          schemaissue[j]? = some issue ∧
          (∀ k, j < k → schemaissue[k]? ≠ some issue) ∧
          common.removeSchemaIssue schemaissue issue = schemaissue.eraseIdx j) ∧
      ((common.removeSchemaIssue schemaissue issue).length + 1 = schemaissue.length ↔
        issue ∈ schemaissue) := by
  have hpresent : issue ∈ schemaissue →
      ∃ j : Nat, j < schemaissue.length ∧ common.findSchemaIssue schemaissue issue = (j : Int) ∧
        schemaissue[j]? = some issue ∧
        (∀ k, j < k → schemaissue[k]? ≠ some issue) ∧
        common.removeSchemaIssue schemaissue issue = schemaissue.eraseIdx j := by
    intro hmem
    obtain ⟨j, hj, hget, hlast, hloop⟩ :=
      common.findSchemaIssue.loop_last issue schemaissue 0 (-1) hmem
    have hfind : common.findSchemaIssue schemaissue issue = (j : Int) := by
      unfold common.findSchemaIssue
      rw [hloop]
      simp
    refine ⟨j, hj, hfind, hget, hlast, ?_⟩
    have hne : (j : Int) ≠ -1 := by omega
    simp [common.removeSchemaIssue, hfind, hne, List.eraseIdx_eq_take_drop_succ]
  refine ⟨?_, ?_, ?_⟩
  · intro hnot
    exact ⟨(common.findSchemaIssue.loop_spec issue schemaissue 0 (-1)).1 hnot,
      common.removeSchemaIssue_of_not_mem schemaissue issue hnot⟩
  · intro hmem
    obtain ⟨j, _, hfind, hget, hlast, hrem⟩ := hpresent hmem
    exact ⟨j, hfind, hget, hlast, hrem⟩
  · constructor
    · intro hlen
      by_contra hnot
      rw [common.removeSchemaIssue_of_not_mem schemaissue issue hnot] at hlen
      omega
    · intro hmem
      obtain ⟨j, hj, _, _, _, hrem⟩ := hpresent hmem
      rw [hrem, List.length_eraseIdx, if_pos hj]
      omega

/-- Witness of C16: in `[RowLimitExceeded, Other 1, RowLimitExceeded, Other 2]`
the issue is found at index 2 and that occurrence is the one removed. -/
theorem findSchemaIssue_removeSchemaIssue_last_witness :
    (common.findSchemaIssue
        [internal.SchemaIssue.RowLimitExceeded, internal.SchemaIssue.Other 1,
          internal.SchemaIssue.RowLimitExceeded, internal.SchemaIssue.Other 2]
        internal.SchemaIssue.RowLimitExceeded = 2 ∧
      common.removeSchemaIssue
        [internal.SchemaIssue.RowLimitExceeded, internal.SchemaIssue.Other 1,
          internal.SchemaIssue.RowLimitExceeded, internal.SchemaIssue.Other 2]
        internal.SchemaIssue.RowLimitExceeded
        = [internal.SchemaIssue.RowLimitExceeded, internal.SchemaIssue.Other 1,
            internal.SchemaIssue.Other 2]) ∧
    (common.findSchemaIssue [internal.SchemaIssue.Other 1]
        internal.SchemaIssue.RowLimitExceeded = -1 ∧
      common.removeSchemaIssue [internal.SchemaIssue.Other 1]
        internal.SchemaIssue.RowLimitExceeded = [internal.SchemaIssue.Other 1]) ∧
    (∃ j : Nat,
      common.findSchemaIssue
        [internal.SchemaIssue.RowLimitExceeded, internal.SchemaIssue.Other 1,
          internal.SchemaIssue.RowLimitExceeded, internal.SchemaIssue.Other 2]
        internal.SchemaIssue.RowLimitExceeded = (j : Int) ∧
      [internal.SchemaIssue.RowLimitExceeded, internal.SchemaIssue.Other 1,
          internal.SchemaIssue.RowLimitExceeded, internal.SchemaIssue.Other 2][j]?
        = some internal.SchemaIssue.RowLimitExceeded ∧
      (∀ k, j < k →
        [internal.SchemaIssue.RowLimitExceeded, internal.SchemaIssue.Other 1,
          internal.SchemaIssue.RowLimitExceeded, internal.SchemaIssue.Other 2][k]?
          ≠ some internal.SchemaIssue.RowLimitExceeded) ∧
      common.removeSchemaIssue
        [internal.SchemaIssue.RowLimitExceeded, internal.SchemaIssue.Other 1,
          internal.SchemaIssue.RowLimitExceeded, internal.SchemaIssue.Other 2]
        internal.SchemaIssue.RowLimitExceeded
        = [internal.SchemaIssue.RowLimitExceeded, internal.SchemaIssue.Other 1,
            internal.SchemaIssue.RowLimitExceeded, internal.SchemaIssue.Other 2].eraseIdx j) :=
  ⟨by decide,
    (findSchemaIssue_removeSchemaIssue_last [internal.SchemaIssue.Other 1]
      internal.SchemaIssue.RowLimitExceeded).1 (by decide),
    (findSchemaIssue_removeSchemaIssue_last
      [internal.SchemaIssue.RowLimitExceeded, internal.SchemaIssue.Other 1,
        internal.SchemaIssue.RowLimitExceeded, internal.SchemaIssue.Other 2]
      internal.SchemaIssue.RowLimitExceeded).2.1 (by decide)⟩

/-- C17: `getColumnSize` implements the storage-size table.  For every length
it returns 1 for `Bool`, 4 for `Date`, 4 for `Float32`, 8 for `Float64`, 8 for
`Int64`, `StringMaxLength` for `JSON`, 22 for `Numeric` and 12 for
`Timestamp`; for `String` it returns `StringMaxLength` when the length is
`MaxLength` and the declared length otherwise, and for `Bytes` it returns
`BytesMaxLength` when the length is `MaxLength` and the declared length
otherwise.  The ten type names are taken to be pairwise distinct. -/
theorem getColumnSize_table (d : ddl.Consts) (length : Int)
    (hNames : [d.Bool, d.Bytes, d.Date, d.Float32, d.Float64, d.Int64, d.String, d.Timestamp,
      d.Numeric, d.JSON].Nodup) :
    common.getColumnSize d d.Bool length = 1 ∧
      common.getColumnSize d d.Date length = 4 ∧
      common.getColumnSize d d.Float32 length = 4 ∧
      common.getColumnSize d d.Float64 length = 8 ∧
      common.getColumnSize d d.Int64 length = 8 ∧
      common.getColumnSize d d.JSON length = d.StringMaxLength ∧
      common.getColumnSize d d.Numeric length = 22 ∧
      common.getColumnSize d d.Timestamp length = 12 ∧
      common.getColumnSize d d.String length
        = (if length = d.MaxLength then d.StringMaxLength else length) ∧
      common.getColumnSize d d.Bytes length
        = (if length = d.MaxLength then d.BytesMaxLength else length) := by
  simp only [List.nodup_cons, List.mem_cons, List.mem_singleton, not_or, List.not_mem_nil,
    not_false_eq_true, List.nodup_nil, and_true] at hNames
  obtain ⟨⟨b1, b2, b3, b4, b5, b6, b7, b8, b9⟩, ⟨y2, y3, y4, y5, y6, y7, y8, y9⟩,
    ⟨a3, a4, a5, a6, a7, a8, a9⟩, ⟨f4, f5, f6, f7, f8, f9⟩, ⟨g5, g6, g7, g8, g9⟩,
    ⟨i6, i7, i8, i9⟩, ⟨s7, s8, s9⟩, ⟨t8, t9⟩, n9⟩ := hNames
  unfold common.getColumnSize common.DATATYPE_TO_STORAGE_SIZE
  refine ⟨?_, ?_, ?_, ?_, ?_, ?_, ?_, ?_, ?_, ?_⟩
  · rw [if_neg b6, if_neg b1]
    rw [GoMap.getD_set_ne _ _ _ _ b7, GoMap.getD_set_ne _ _ _ _ b8, GoMap.getD_set_ne _ _ _ _ b9,
      GoMap.getD_set_ne _ _ _ _ b5, GoMap.getD_set_ne _ _ _ _ b4, GoMap.getD_set_ne _ _ _ _ b3,
      GoMap.getD_set_ne _ _ _ _ b2, GoMap.getD_set_self]
  · rw [if_neg a6, if_neg (Ne.symm y2)]
    rw [GoMap.getD_set_ne _ _ _ _ a7, GoMap.getD_set_ne _ _ _ _ a8, GoMap.getD_set_ne _ _ _ _ a9,
      GoMap.getD_set_ne _ _ _ _ a5, GoMap.getD_set_ne _ _ _ _ a4, GoMap.getD_set_ne _ _ _ _ a3,
      GoMap.getD_set_self]
  · rw [if_neg f6, if_neg (Ne.symm y3)]
    rw [GoMap.getD_set_ne _ _ _ _ f7, GoMap.getD_set_ne _ _ _ _ f8, GoMap.getD_set_ne _ _ _ _ f9,
      GoMap.getD_set_ne _ _ _ _ f5, GoMap.getD_set_ne _ _ _ _ f4, GoMap.getD_set_self]
  · rw [if_neg g6, if_neg (Ne.symm y4)]
    rw [GoMap.getD_set_ne _ _ _ _ g7, GoMap.getD_set_ne _ _ _ _ g8, GoMap.getD_set_ne _ _ _ _ g9,
      GoMap.getD_set_ne _ _ _ _ g5, GoMap.getD_set_self]
  · rw [if_neg i6, if_neg (Ne.symm y5)]
    rw [GoMap.getD_set_ne _ _ _ _ i7, GoMap.getD_set_ne _ _ _ _ i8, GoMap.getD_set_ne _ _ _ _ i9,
      GoMap.getD_set_self]
  · rw [if_neg (Ne.symm s9), if_neg (Ne.symm y9)]
    rw [GoMap.getD_set_ne _ _ _ _ (Ne.symm t9), GoMap.getD_set_ne _ _ _ _ (Ne.symm n9),
      GoMap.getD_set_self]
  · rw [if_neg (Ne.symm s8), if_neg (Ne.symm y8)]
    rw [GoMap.getD_set_ne _ _ _ _ (Ne.symm t8), GoMap.getD_set_self]
  · rw [if_neg (Ne.symm s7), if_neg (Ne.symm y7)]
    rw [GoMap.getD_set_self]
  · rw [if_pos rfl]
  · rw [if_neg y6, if_pos rfl]

/-- Witness of C17 at the upstream constants, for a declared length of 50. -/
theorem getColumnSize_table_witness :
    common.getColumnSize ddl.upstream ddl.upstream.Bool 50 = 1 ∧
      common.getColumnSize ddl.upstream ddl.upstream.Date 50 = 4 ∧
      common.getColumnSize ddl.upstream ddl.upstream.Float32 50 = 4 ∧
      common.getColumnSize ddl.upstream ddl.upstream.Float64 50 = 8 ∧
      common.getColumnSize ddl.upstream ddl.upstream.Int64 50 = 8 ∧
      common.getColumnSize ddl.upstream ddl.upstream.JSON 50 = ddl.upstream.StringMaxLength ∧
      common.getColumnSize ddl.upstream ddl.upstream.Numeric 50 = 22 ∧
      common.getColumnSize ddl.upstream ddl.upstream.Timestamp 50 = 12 ∧
      common.getColumnSize ddl.upstream ddl.upstream.String 50
        = (if (50 : Int) = ddl.upstream.MaxLength then ddl.upstream.StringMaxLength else 50) ∧
      common.getColumnSize ddl.upstream ddl.upstream.Bytes 50
        = (if (50 : Int) = ddl.upstream.MaxLength then ddl.upstream.BytesMaxLength else 50) :=
  getColumnSize_table ddl.upstream 50 (by decide)

/-! ## Lemmas on the frame of the row-limit validator -/

/-- Removing an issue leaves the other issues and their order untouched. -/
theorem common.filter_ne_removeSchemaIssue (s : List internal.SchemaIssue)
    (issue : internal.SchemaIssue) :
    (common.removeSchemaIssue s issue).filter (fun x => decide (x ≠ issue))
      = s.filter (fun x => decide (x ≠ issue)) := by
  by_cases h : issue ∈ s
  · obtain ⟨j, hj, hget, hrem⟩ := common.removeSchemaIssue_of_mem s issue h
    have h1 : s[j] = issue := by
      have := List.getElem?_eq_getElem hj
      rw [this] at hget
      exact Option.some.inj hget
    have hsplit : s = s.take j ++ issue :: s.drop (j + 1) := by
      conv_lhs => rw [← List.take_append_drop j s, List.drop_eq_getElem_cons hj, h1]
    rw [hrem]
    conv_rhs => rw [hsplit]
    simp [List.filter_append, List.filter_cons]
  · rw [common.removeSchemaIssue_of_not_mem s issue h]

/-! ## Lemmas on issue slices in memory -/

theorem mem.Slice.view_of_len_zero (heap : mem.Heap) (s : mem.Slice) (h : s.len = 0) :
    s.view heap = [] := by
  simp [mem.Slice.view, h]

theorem mem.Slice.length_view (heap : mem.Heap) (s : mem.Slice) (h : s.wellFormed heap) :
    (s.view heap).length = s.len := by
  obtain ⟨h1, h2⟩ := h
  simp only [mem.Slice.view, List.length_take, List.length_drop]
  omega

theorem mem.Heap.array_set_ne (heap : mem.Heap) (i j : Nat) (x : List internal.SchemaIssue)
    (h : j ≠ i) : (heap.set i x).getD j [] = heap.getD j [] := by
  simp only [List.getD_eq_getElem?_getD]
  rw [List.getElem?_set_ne (Ne.symm h)]

theorem mem.Heap.array_append_left (heap : mem.Heap) (j : Nat) (x : List internal.SchemaIssue)
    (h : j < heap.length) : (heap ++ [x]).getD j [] = heap.getD j [] := by
  simp only [List.getD_eq_getElem?_getD]
  rw [List.getElem?_append_left h]

theorem mem.Heap.array_set_self (heap : mem.Heap) (i : Nat) (x : List internal.SchemaIssue)
    (h : i < heap.length) : (heap.set i x).getD i [] = x := by
  simp only [List.getD_eq_getElem?_getD]
  rw [List.getElem?_set_self h]
  rfl

theorem mem.Heap.set_array_self (heap : mem.Heap) (i : Nat) :
    heap.set i (heap.getD i []) = heap := by
  apply List.ext_getElem?
  intro j
  by_cases hj : j = i
  · subst hj
    by_cases hlt : j < heap.length
    · rw [List.getElem?_set_self hlt, List.getD_eq_getElem?_getD, List.getElem?_eq_getElem hlt]
      rfl
    · rw [List.getElem?_eq_none (by simpa using hlt),
        List.getElem?_eq_none (by simpa using hlt)]
  · rw [List.getElem?_set_ne (Ne.symm hj)]

theorem mem.writeAt_nil (a : List internal.SchemaIssue) (p : Nat) : mem.writeAt a p [] = a := by
  simp [mem.writeAt]

/-- A slice that is separate from `dst` shows the same elements after an
`append` to `dst`, and stays separate from the slice `append` returns. -/
theorem mem.append_frame (rt : mem.Runtime) (heap : mem.Heap) (dst s : mem.Slice)
    (elems : List internal.SchemaIssue) (hsep : mem.Slice.separate heap dst s) :
    s.view (mem.append rt heap dst elems).1 = s.view heap ∧
      mem.Slice.separate (mem.append rt heap dst elems).1 (mem.append rt heap dst elems).2 s := by
  rcases hsep with hzero | ⟨hlt, hne⟩
  · exact ⟨by rw [mem.Slice.view_of_len_zero _ s hzero, mem.Slice.view_of_len_zero _ s hzero],
      Or.inl hzero⟩
  · unfold mem.append
    by_cases hfit : dst.len + elems.length ≤ dst.cap
    · simp only [if_pos hfit]
      refine ⟨?_, Or.inr ⟨by simpa using hlt, hne⟩⟩
      rcases hne with hne | hcap
      · simp only [mem.Slice.view, mem.Heap.array_set_ne heap dst.arr s.arr _ hne]
      · have hnil : elems = [] := by
          apply List.eq_nil_of_length_eq_zero
          omega
        rw [hnil, mem.writeAt_nil, mem.Heap.set_array_self]
    · simp only [if_neg hfit]
      refine ⟨?_, Or.inr ⟨?_, Or.inl ?_⟩⟩
      · simp only [mem.Slice.view, mem.Heap.array_append_left heap s.arr _ hlt]
      · simp only [List.length_append, List.length_singleton]
        omega
      · exact Nat.ne_of_lt hlt

/-- The slice `append` returns shows the elements of `dst` followed by the
appended ones, and lies within its backing array. -/
theorem mem.append_own (rt : mem.Runtime) (heap : mem.Heap) (dst : mem.Slice)
    (elems : List internal.SchemaIssue) (hwf : dst.wellFormed heap) :
    (mem.append rt heap dst elems).2.view (mem.append rt heap dst elems).1
        = dst.view heap ++ elems ∧
      (mem.append rt heap dst elems).2.wellFormed (mem.append rt heap dst elems).1 := by
  have hlen := mem.Slice.length_view heap dst hwf
  obtain ⟨h1, h2⟩ := hwf
  unfold mem.append
  by_cases hfit : dst.len + elems.length ≤ dst.cap
  · simp only [if_pos hfit]
    by_cases hnil : elems = []
    · subst hnil
      rw [mem.writeAt_nil, mem.Heap.set_array_self]
      constructor
      · simp [mem.Slice.view]
      · exact ⟨by simpa using h1, h2⟩
    · have hpos : 0 < elems.length := List.length_pos.2 hnil
      have harr : dst.arr < heap.length := by
        by_contra hge
        have : heap.getD dst.arr [] = [] := by
          simp only [List.getD_eq_getElem?_getD]
          rw [List.getElem?_eq_none (by omega)]
          rfl
        rw [this] at h2
        simp at h2
        omega
      have hwlen : (mem.writeAt (heap.getD dst.arr []) (dst.off + dst.len) elems).length
          = (heap.getD dst.arr []).length := by
        simp only [mem.writeAt, List.length_append, List.length_take, List.length_drop]
        omega
      constructor
      · simp only [mem.Slice.view, mem.Heap.array_set_self heap dst.arr _ harr]
        simp only [mem.writeAt, List.append_assoc]
        rw [List.drop_append_of_le_length (by simp only [List.length_take]; omega)]
        rw [List.take_append_eq_append_take]
        have e1 : ((heap.getD dst.arr []).take (dst.off + dst.len)).drop dst.off
            = ((heap.getD dst.arr []).drop dst.off).take dst.len := by
          rw [List.drop_take]
          congr 1
          omega
        have e2 : (((heap.getD dst.arr []).take (dst.off + dst.len)).drop dst.off).length
            = dst.len := by
          simp only [List.length_drop, List.length_take]
          omega
        rw [e2]
        rw [List.take_of_length_le (by rw [e2]; omega)]
        rw [show dst.len + elems.length - dst.len = elems.length by omega]
        rw [List.take_append_eq_append_take, List.take_of_length_le (Nat.le_refl _), e1]
        simp
      · exact ⟨hfit, by
          simp only [mem.Heap.array_set_self heap dst.arr _ harr, hwlen]
          exact h2⟩
  · simp only [if_neg hfit]
    have hget : (heap ++ [dst.view heap ++ elems ++
        List.replicate (rt.spare (dst.len + elems.length)) rt.zero]).getD heap.length []
        = dst.view heap ++ elems ++
          List.replicate (rt.spare (dst.len + elems.length)) rt.zero := by
      simp only [List.getD_eq_getElem?_getD]
      rw [List.getElem?_append_right (Nat.le_refl _)]
      simp
    constructor
    · simp only [mem.Slice.view] at hget hlen ⊢
      rw [hget, List.drop_zero, List.take_append_eq_append_take, List.take_of_length_le (by
        simp only [List.length_append, hlen]; omega)]
      simp only [List.length_append, hlen, Nat.sub_self, List.take_zero, List.append_nil]
    · refine ⟨by simp, ?_⟩
      simp only [hget, List.length_append, List.length_replicate, hlen]
      omega

/-- The position `findSchemaIssue` returns is `-1` or an index of the list. -/
theorem common.findSchemaIssue_range (s : List internal.SchemaIssue)
    (issue : internal.SchemaIssue) (h : common.findSchemaIssue s issue ≠ -1) :
    ∃ j : Nat, j < s.length ∧ common.findSchemaIssue s issue = (j : Int) := by
  by_cases hmem : issue ∈ s
  · obtain ⟨j, hj, _, hloop⟩ := (common.findSchemaIssue.loop_spec issue s 0 (-1)).2 hmem
    refine ⟨j, hj, ?_⟩
    unfold common.findSchemaIssue
    rw [hloop]
    simp
  · exact absurd ((common.findSchemaIssue.loop_spec issue s 0 (-1)).1 hmem) h

/-- On slice headers `removeSchemaIssue` returns a slice that shows the list
the value embedding computes, and that lies within its backing array. -/
theorem mem.removeSchemaIssue_own (rt : mem.Runtime) (heap : mem.Heap) (s : mem.Slice)
    (issue : internal.SchemaIssue) (hwf : s.wellFormed heap) :
    (mem.removeSchemaIssue rt heap s issue).2.view (mem.removeSchemaIssue rt heap s issue).1
        = common.removeSchemaIssue (s.view heap) issue ∧
      (mem.removeSchemaIssue rt heap s issue).2.wellFormed
        (mem.removeSchemaIssue rt heap s issue).1 := by
  have hlen := mem.Slice.length_view heap s hwf
  unfold mem.removeSchemaIssue common.removeSchemaIssue
  by_cases hind : common.findSchemaIssue (s.view heap) issue ≠ -1
  · obtain ⟨j, hj, hfind⟩ := common.findSchemaIssue_range _ _ hind
    have hj' : (j : Int) ≠ -1 := by omega
    simp only [hfind, if_pos hj', Int.toNat_ofNat]
    have hwf' : mem.Slice.wellFormed heap { s with len := j } := ⟨by
      show j ≤ s.cap
      have := hwf.1
      omega, hwf.2⟩
    obtain ⟨hview, hwf''⟩ := mem.append_own rt heap { s with len := j }
      ((s.view heap).drop (j + 1)) hwf'
    refine ⟨?_, hwf''⟩
    rw [hview]
    congr 1
    simp only [mem.Slice.view, List.take_take]
    congr 1
    omega
  · simp only [if_neg hind]
    exact ⟨trivial, hwf⟩

/-- A slice that is separate from `s` shows the same elements after
`removeSchemaIssue` on `s`, and stays separate from the slice returned. -/
theorem mem.removeSchemaIssue_frame (rt : mem.Runtime) (heap : mem.Heap) (s other : mem.Slice)
    (issue : internal.SchemaIssue) (hsep : mem.Slice.separate heap s other) :
    other.view (mem.removeSchemaIssue rt heap s issue).1 = other.view heap ∧
      mem.Slice.separate (mem.removeSchemaIssue rt heap s issue).1
        (mem.removeSchemaIssue rt heap s issue).2 other := by
  unfold mem.removeSchemaIssue
  by_cases hind : common.findSchemaIssue (s.view heap) issue ≠ -1
  · simp only [if_pos hind]
    exact mem.append_frame rt heap { s with len := (common.findSchemaIssue (s.view heap) issue).toNat }
      other _ hsep
  · simp only [if_neg hind]
    exact ⟨trivial, hsep⟩

/-- The heap and the slice of the validated table after
`ComputeNonKeyColumnSize` on slice headers. -/
theorem mem.ComputeNonKeyColumnSize_own (rt : mem.Runtime) (d : ddl.Consts) (conv : mem.Conv)
    (tableId : GoString)
    (hOwn : ((conv.SchemaIssues.getD tableId).TableLevelIssues).wellFormed conv.Heap) :
    mem.tableLevelIssues (mem.ComputeNonKeyColumnSize rt d conv tableId) tableId =
      if wrapInt (nonKeyColumnSizes d (conv.SpSchema.getD tableId)).sum
          > d.MaxNonKeyColumnLength then
        common.removeSchemaIssue (mem.tableLevelIssues conv tableId)
          internal.SchemaIssue.RowLimitExceeded ++ [internal.SchemaIssue.RowLimitExceeded]
      else
        common.removeSchemaIssue (mem.tableLevelIssues conv tableId)
          internal.SchemaIssue.RowLimitExceeded := by
  obtain ⟨hview, hwf⟩ := mem.removeSchemaIssue_own rt conv.Heap
    (conv.SchemaIssues.getD tableId).TableLevelIssues internal.SchemaIssue.RowLimitExceeded hOwn
  unfold mem.tableLevelIssues mem.ComputeNonKeyColumnSize
  simp only [GoMap.getD_set_self, common.ComputeNonKeyColumnSize.total_eq]
  split
  · rw [(mem.append_own rt _ _ [internal.SchemaIssue.RowLimitExceeded] hwf).1, hview]
  · exact hview

/-- A slice that is separate from the table-level slice of the validated table
shows the same elements after `ComputeNonKeyColumnSize`. -/
theorem mem.ComputeNonKeyColumnSize_view (rt : mem.Runtime) (d : ddl.Consts) (conv : mem.Conv)
    (tableId : GoString) (other : mem.Slice)
    (hsep : mem.Slice.separate conv.Heap (conv.SchemaIssues.getD tableId).TableLevelIssues other) :
    other.view (mem.ComputeNonKeyColumnSize rt d conv tableId).Heap = other.view conv.Heap := by
  obtain ⟨hview, hsep'⟩ := mem.removeSchemaIssue_frame rt conv.Heap
    (conv.SchemaIssues.getD tableId).TableLevelIssues other
    internal.SchemaIssue.RowLimitExceeded hsep
  unfold mem.ComputeNonKeyColumnSize
  simp only []
  split
  · rw [(mem.append_frame rt _ _ other [internal.SchemaIssue.RowLimitExceeded] hsep').1, hview]
  · exact hview

/-! ## Row-limit validator: frame -/

/-- C19 (as stated, refuted): when the ledger entries of `t1` and `t2` hold the
same slice `[RowLimitExceeded, Other 7]`, `ComputeNonKeyColumnSize` on `t1`
shifts the shared backing array in place, and afterwards the entry of the
other table `t2` shows `[Other 7, Other 7]`. -/
theorem ComputeNonKeyColumnSize_shared_array_changes_other_table :
    (mem.tableLevelIssues exampleMemShared "t2"
        = [internal.SchemaIssue.RowLimitExceeded, internal.SchemaIssue.Other 7] ∧
      mem.tableLevelIssues
          (mem.ComputeNonKeyColumnSize exampleRuntime ddl.upstream exampleMemShared "t1") "t2"
        = [internal.SchemaIssue.Other 7, internal.SchemaIssue.Other 7]) ∧
    ¬ (∀ other, other ≠ "t1" →
        mem.tableLevelIssues
            (mem.ComputeNonKeyColumnSize exampleRuntime ddl.upstream exampleMemShared "t1") other
          = mem.tableLevelIssues exampleMemShared other) :=
  ⟨by decide, fun h => absurd (h "t2" (by decide)) (by decide)⟩

/-- C19 (amended): for every context in which the table-level issue slice of
the table lies within its backing array and no other issue slice of the ledger
(the table-level slice of another table, a column-level slice of any table)
shares that backing array, `ComputeNonKeyColumnSize` touches only the
`RowLimitExceeded` entries of the one table.  After the call every
column-level issue list of the table is unchanged, the table-level issues
other than `RowLimitExceeded` are the same as before in the same relative
order (the list is the one computed on values), the ledger entry of every
other table is unchanged, header and elements, and the source and target
schemas are unchanged. -/
theorem ComputeNonKeyColumnSize_frame (rt : mem.Runtime) (d : ddl.Consts) (conv : mem.Conv)
    (tableId : GoString)
    (hOwn : ((conv.SchemaIssues.getD tableId).TableLevelIssues).wellFormed conv.Heap)
    (hSeparate : ∀ e, e ∈ conv.SchemaIssues.entries →
      (e.1 ≠ tableId →
        mem.Slice.separate conv.Heap (conv.SchemaIssues.getD tableId).TableLevelIssues
          e.2.TableLevelIssues) ∧
      ∀ c, c ∈ e.2.ColumnLevelIssues.entries →
        mem.Slice.separate conv.Heap (conv.SchemaIssues.getD tableId).TableLevelIssues c.2) :
    (∀ colId, mem.columnLevelIssues (mem.ComputeNonKeyColumnSize rt d conv tableId) tableId colId
        = mem.columnLevelIssues conv tableId colId) ∧
      ((mem.tableLevelIssues (mem.ComputeNonKeyColumnSize rt d conv tableId) tableId).filter
          (fun x => decide (x ≠ internal.SchemaIssue.RowLimitExceeded))
        = (mem.tableLevelIssues conv tableId).filter
          (fun x => decide (x ≠ internal.SchemaIssue.RowLimitExceeded)) ∧
        mem.tableLevelIssues (mem.ComputeNonKeyColumnSize rt d conv tableId) tableId =
          if wrapInt (nonKeyColumnSizes d (conv.SpSchema.getD tableId)).sum
              > d.MaxNonKeyColumnLength then
            common.removeSchemaIssue (mem.tableLevelIssues conv tableId)
              internal.SchemaIssue.RowLimitExceeded ++ [internal.SchemaIssue.RowLimitExceeded]
          else
            common.removeSchemaIssue (mem.tableLevelIssues conv tableId)
              internal.SchemaIssue.RowLimitExceeded) ∧
      (∀ other, other ≠ tableId →
        (mem.ComputeNonKeyColumnSize rt d conv tableId).SchemaIssues.get? other
            = conv.SchemaIssues.get? other ∧
          mem.tableLevelIssues (mem.ComputeNonKeyColumnSize rt d conv tableId) other
            = mem.tableLevelIssues conv other ∧
          ∀ colId, mem.columnLevelIssues (mem.ComputeNonKeyColumnSize rt d conv tableId) other colId
            = mem.columnLevelIssues conv other colId) ∧
      (mem.ComputeNonKeyColumnSize rt d conv tableId).SrcSchema = conv.SrcSchema ∧
      (mem.ComputeNonKeyColumnSize rt d conv tableId).SpSchema = conv.SpSchema := by
  have hsepTable : ∀ other, other ≠ tableId →
      mem.Slice.separate conv.Heap (conv.SchemaIssues.getD tableId).TableLevelIssues
        (conv.SchemaIssues.getD other).TableLevelIssues := by
    intro other hne
    cases hget : conv.SchemaIssues.get? other with
    | none =>
      rw [GoMap.getD_of_get?_none _ _ hget]
      exact Or.inl rfl
    | some ti =>
      rw [GoMap.getD_of_get?_some _ _ _ hget]
      exact (hSeparate (other, ti) (GoMap.mem_of_get? _ _ _ hget)).1 hne
  have hsepColumn : ∀ t colId,
      mem.Slice.separate conv.Heap (conv.SchemaIssues.getD tableId).TableLevelIssues
        ((conv.SchemaIssues.getD t).ColumnLevelIssues.getD colId) := by
    intro t colId
    cases hget : conv.SchemaIssues.get? t with
    | none =>
      rw [GoMap.getD_of_get?_none _ _ hget]
      exact Or.inl rfl
    | some ti =>
      rw [GoMap.getD_of_get?_some _ _ _ hget]
      cases hcol : ti.ColumnLevelIssues.get? colId with
      | none =>
        rw [GoMap.getD_of_get?_none _ _ hcol]
        exact Or.inl rfl
      | some s =>
        rw [GoMap.getD_of_get?_some _ _ _ hcol]
        exact (hSeparate (t, ti) (GoMap.mem_of_get? _ _ _ hget)).2 (colId, s)
          (GoMap.mem_of_get? _ _ _ hcol)
  have hentry : (mem.ComputeNonKeyColumnSize rt d conv tableId).SchemaIssues.getD tableId
      = { TableLevelIssues :=
            ((mem.ComputeNonKeyColumnSize rt d conv tableId).SchemaIssues.getD tableId).TableLevelIssues
          ColumnLevelIssues := (conv.SchemaIssues.getD tableId).ColumnLevelIssues } := by
    unfold mem.ComputeNonKeyColumnSize
    simp only [GoMap.getD_set_self]
  have hother : ∀ other, other ≠ tableId →
      (mem.ComputeNonKeyColumnSize rt d conv tableId).SchemaIssues.getD other
        = conv.SchemaIssues.getD other := by
    intro other hne
    unfold mem.ComputeNonKeyColumnSize
    simp only [GoMap.getD_set_ne _ _ _ _ hne]
  have hown := mem.ComputeNonKeyColumnSize_own rt d conv tableId hOwn
  refine ⟨?_, ⟨?_, hown⟩, ?_, rfl, rfl⟩
  · intro colId
    unfold mem.columnLevelIssues
    rw [hentry]
    exact mem.ComputeNonKeyColumnSize_view rt d conv tableId _ (hsepColumn tableId colId)
  · rw [hown]
    split
    · rw [List.filter_append, common.filter_ne_removeSchemaIssue]
      simp
    · rw [common.filter_ne_removeSchemaIssue]
  · intro other hne
    refine ⟨?_, ?_, ?_⟩
    · unfold mem.ComputeNonKeyColumnSize
      simp only [GoMap.get?_set_ne _ _ _ _ hne]
    · unfold mem.tableLevelIssues
      rw [hother other hne]
      exact mem.ComputeNonKeyColumnSize_view rt d conv tableId _ (hsepTable other hne)
    · intro colId
      unfold mem.columnLevelIssues
      rw [hother other hne]
      exact mem.ComputeNonKeyColumnSize_view rt d conv tableId _ (hsepColumn other colId)

/-- Witness of C19 (amended) on `exampleMemSeparate`, where every slice has a
backing array of its own: after the call on `t1` the table shows `[Other 7]`,
its column `c1` still shows `[Other 3]`, and table `t2` still shows
`[RowLimitExceeded, Other 7]`. -/
theorem ComputeNonKeyColumnSize_frame_witness :
    (mem.tableLevelIssues
        (mem.ComputeNonKeyColumnSize exampleRuntime ddl.upstream exampleMemSeparate "t1") "t1"
        = [internal.SchemaIssue.Other 7] ∧
      mem.tableLevelIssues exampleMemSeparate "t2"
        = [internal.SchemaIssue.RowLimitExceeded, internal.SchemaIssue.Other 7] ∧
      mem.columnLevelIssues exampleMemSeparate "t1" "c1" = [internal.SchemaIssue.Other 3]) ∧
    mem.columnLevelIssues
        (mem.ComputeNonKeyColumnSize exampleRuntime ddl.upstream exampleMemSeparate "t1") "t1" "c1"
      = mem.columnLevelIssues exampleMemSeparate "t1" "c1" ∧
    mem.tableLevelIssues
        (mem.ComputeNonKeyColumnSize exampleRuntime ddl.upstream exampleMemSeparate "t1") "t2"
      = mem.tableLevelIssues exampleMemSeparate "t2" :=
  ⟨⟨by decide, by decide, by decide⟩,
    (ComputeNonKeyColumnSize_frame exampleRuntime ddl.upstream exampleMemSeparate "t1"
      (by decide) (by decide)).1 "c1",
    ((ComputeNonKeyColumnSize_frame exampleRuntime ddl.upstream exampleMemSeparate "t1"
      (by decide) (by decide)).2.2.1 "t2" (by decide)).2.1⟩


/-! ## Schema report: header row -/

/-- The first record of the report holds the header labels in the order in
which the header map is ranged over. -/
theorem assessment.generateSchemaReport_head (headerRange : List (GoString × GoString))
    (assessmentOutput : utils.AssessmentOutput) :
    (assessment.generateSchemaReport headerRange assessmentOutput).head?
      = some (headerRange.map Prod.snd) := by
  unfold assessment.generateSchemaReport
  simp only []
  rw [List.foldl_append_singleton_eq_map, List.foldl_append_singleton_eq_map]
  simp

/-- C18 (code evaluated at a failing run): when the header map is ranged over
in the order of its literal, the header row of the report is not the row the
spec lists: its cells 6 to 9 read DB Change Type, DB Change Effort, Code
Change Type, Code Change Effort, while the data row below holds the change
effort in cell 6 and the change type in cell 7.  Ranged over in the reverse
order the header is yet another row. -/
theorem generateSchemaReport_header_follows_range :
    (assessment.generateSchemaReport assessment.getSchemaKeyVsHeader.entries
        exampleAssessment).head?
        = some ["Element", "Element Type", "Source Definition", "Target Name",
            "Target Definition", "DB Change Type", "DB Change Effort", "Code Change Type",
            "Code Change Effort", "Impacted Files", "Related Code Snippets"] ∧
      (assessment.generateSchemaReport assessment.getSchemaKeyVsHeader.entries
        exampleAssessment).head? ≠ some assessment.specHeader ∧
      (assessment.generateSchemaReport assessment.getSchemaKeyVsHeader.entries
        exampleAssessment)[1]?
        = some ["orders", "Table", "N/A", "N/A", "N/A", "Automatic", "None", "", "", "", ""] ∧
      (assessment.generateSchemaReport assessment.getSchemaKeyVsHeader.entries.reverse
        exampleAssessment).head?
        = some ["Related Code Snippets", "Impacted Files", "Code Change Effort",
            "Code Change Type", "DB Change Effort", "DB Change Type", "Target Definition",
            "Target Name", "Source Definition", "Element Type", "Element"] := by
  decide
